import Mathlib

/-!
Verification of the radiative-transfer dispatch and quantity-accumulation
engine of `lib/Astrobj.C` (class `Gyoto::Astrobj::Generic` and the associated
`Astrobj::Properties` output record).

Modelling conventions (shallow embedding):

* IEEE doubles are modelled by an arbitrary linear ordered field `R`
  (exactness idealisation of finite doubles).  The transcendental functions
  `exp`, `log`, `sqrt` and the special values `-infinity` (produced by the
  polarized fallback) and `DBL_MAX` (the impact-coordinates sentinel) are
  carried as an abstract operation record `MathOps`.
* The capability bitmask `__defaultfeatures` is the record `DState`: one
  Boolean per bit (`__default_radiativeQ_polar` = `polar`,
  `__default_radiativeQ` = `unpol`, `__default_emission_vector` = `emvec`).
  Every dispatcher function threads this state explicitly; in the C++ the
  same mutation happens through `const_cast` on the shared object.
* Virtual dispatch is modelled by `Option`-valued override slots in
  `Generic`: a `some` override is a concrete subclass implementation (a pure
  function that does not touch the bitmask), `none` selects the generic
  fallback body of `Astrobj.C`.
* The mutual recursion between the fallback bodies is made total with a
  fuel parameter; `none` means the fuel ran out.  Fuel is consumed once per
  generic body and once per element of the per-frequency loops, so any
  fuel of the form `length + constant` is sufficient (proved below).
* C-arrays indexed `0 .. nbnu-1` become `List R`; out-of-range reads are
  `List.getD _ 0`, in-place writes `List.set`.
* The photon (external collaborator, `GyotoPhoton.h`) is modelled at its
  interface: transmissions read during the hit come from the fields
  `transAll` / `transChan`, and each `Photon::transmit` call is appended to
  the `transmits` log (`none` = the overall `size_t(-1)` slot, `some i` =
  spectral channel `i`); each `Photon::transfer` call is appended to the
  `transfers` log.
-/

namespace Gyoto

/-- Capability bitmask `__defaultfeatures`: which of the three radiative
primitives are known to be the default (fallback) implementation. -/
structure DState where
  polar : Bool
  unpol : Bool
  emvec : Bool
deriving DecidableEq, Repr

/-- Fresh object: `__defaultfeatures(0)` in every constructor. -/
def DState.init : DState := ⟨false, false, false⟩

/-- Bitwise order: `s ≤ t` when every bit set in `s` is set in `t`
(the bitmask only ever grows by bitwise or). -/
def DState.le (s t : DState) : Prop :=
  (s.polar = true → t.polar = true) ∧ (s.unpol = true → t.unpol = true) ∧
    (s.emvec = true → t.emvec = true)

/-- Abstract double-precision operations used by the fallback bodies. -/
structure MathOps (R : Type) where
  exp : R → R
  log : R → R
  negInf : R
  sqrt : R → R
  dblMax : R

/-- Coordinate-kind tag of the metric (`coordKind()`). -/
inductive CoordKind where
  | spherical
  | cartesian
  | other
deriving DecidableEq, Repr

/-- Metric collaborator at its interface boundary: a scalar product
(position, vector, vector) and a coordinate-kind tag. -/
structure MetricM (R : Type) where
  scalarProd : List R → List R → List R → R
  coordKind : CoordKind

/-- Output of the polarized `radiativeQ`: emission, absorption and rotation
coefficients for Stokes I, Q, U, V, one entry per frequency. -/
structure PolOut (R : Type) where
  Inu : List R
  Qnu : List R
  Unu : List R
  Vnu : List R
  alphaInu : List R
  alphaQnu : List R
  alphaUnu : List R
  alphaVnu : List R
  rQnu : List R
  rUnu : List R
  rVnu : List R
deriving DecidableEq, Repr

/-- The emitting object `Astrobj::Generic`: configuration attributes plus one
optional override per radiative-transfer primitive (virtual dispatch). -/
structure Generic (R : Type) where
  gg : Option (MetricM R)
  rmax : R
  deltamaxinsidermax : R
  flag_radtransf : Bool
  noredshift : Bool
  emS : Option (R → R → List R → List R → R)
  emV : Option (List R → R → List R → List R → List R)
  radQ : Option (List R → R → List R → List R → List R × List R)
  radQpol : Option (List R → R → List R → List R → PolOut R)
  trans : Option (R → R → List R → List R → R)

variable {R : Type} [LinearOrderedField R]

mutual

/-- Model of `Generic::transmission(double nuem, double dsem, ...)`.
If either `radiativeQ` bit is still unset, delegate to the unpolarized
`radiativeQ`; otherwise return `double(flag_radtransf_)`. -/
def transmission (ops : MathOps R) (a : Generic R) :
    ℕ → DState → R → R → List R → List R → Option (R × DState)
  | fuel, s, nuem, dsem, cph, co =>
    a.trans.elim
      (match fuel with
       | 0 => none
       | fuel+1 =>
         if s.unpol = false ∨ s.polar = false then
           match radiativeQ ops a fuel s [nuem] dsem cph co with
           | none => none
           | some ((_, Taunu), s') => some (Taunu.getD 0 0, s')
         else
           some (if a.flag_radtransf then 1 else 0, s))
      (fun t => some (t nuem dsem cph co, s))

/-- Model of scalar `Generic::emission(double nuem, double dsem, ...)`.
Tries vector emission, then unpolarized `radiativeQ`, then falls back to
uniform emission (`dsem` if optically thin, `1.` otherwise). -/
def emission (ops : MathOps R) (a : Generic R) :
    ℕ → DState → R → R → List R → List R → Option (R × DState)
  | fuel, s, nuem, dsem, cph, co =>
    a.emS.elim
      (match fuel with
       | 0 => none
       | fuel+1 =>
         if s.emvec = false then
           match emissionVec ops a fuel s [nuem] dsem cph co with
           | none => none
           | some (Inu, s') => some (Inu.getD 0 0, s')
         else if s.unpol = false ∨ s.polar = false then
           match radiativeQ ops a fuel s [nuem] dsem cph co with
           | none => none
           | some ((Inu, _), s') => some (Inu.getD 0 0, s')
         else
           some (if a.flag_radtransf then dsem else 1, s))
      (fun e => some (e nuem dsem cph co, s))

/-- Model of vector `Generic::emission(double *Inu, double const *nuem, ...)`.
Sets the `__default_emission_vector` bit first, then tries the unpolarized
and polarized `radiativeQ`, then computes each `Inu[i]` by scalar emission. -/
def emissionVec (ops : MathOps R) (a : Generic R) :
    ℕ → DState → List R → R → List R → List R → Option (List R × DState)
  | fuel, s, nuem, dsem, cph, co =>
    a.emV.elim
      (match fuel with
       | 0 => none
       | fuel+1 =>
         let s1 : DState := { s with emvec := true }
         if s1.unpol = false then
           match radiativeQ ops a fuel s1 nuem dsem cph co with
           | none => none
           | some ((Inu, _), s') => some (Inu, s')
         else if s1.polar = false then
           match radiativeQPol ops a fuel s1 nuem dsem cph co with
           | none => none
           | some (out, s') => some (out.Inu, s')
         else
           emissionList ops a fuel s1 nuem dsem cph co)
      (fun e => some (e nuem dsem cph co, s))

/-- Model of unpolarized `Generic::radiativeQ(double *Inu, double *Taunu, ...)`.
Sets the `__default_radiativeQ` bit first.  If the polarized bit is unset,
delegates to polarized `radiativeQ` and rebuilds `Taunu` (from
`exp(-alphaInu)` if polarized turned out to be overridden, else from
`transmission`); otherwise uses vector emission plus `transmission`. -/
def radiativeQ (ops : MathOps R) (a : Generic R) :
    ℕ → DState → List R → R → List R → List R → Option ((List R × List R) × DState)
  | fuel, s, nuem, dsem, cph, co =>
    a.radQ.elim
      (match fuel with
       | 0 => none
       | fuel+1 =>
         let s1 : DState := { s with unpol := true }
         if s1.polar = false then
           match radiativeQPol ops a fuel s1 nuem dsem cph co with
           | none => none
           | some (out, s2) =>
             if s2.polar = false then
               some ((out.Inu, out.alphaInu.map fun x => ops.exp (-x)), s2)
             else
               match transmissionList ops a fuel s2 nuem dsem cph co with
               | none => none
               | some (Taunu, s3) => some ((out.Inu, Taunu), s3)
         else
           match emissionVec ops a fuel s1 nuem dsem cph co with
           | none => none
           | some (Inu, s2) =>
             match transmissionList ops a fuel s2 nuem dsem cph co with
             | none => none
             | some (Taunu, s3) => some ((Inu, Taunu), s3))
      (fun q => some (q nuem dsem cph co, s))

/-- Model of polarized `Generic::radiativeQ(double *Inu, ..., double *rVnu, ...)`.
Sets the `__default_radiativeQ_polar` bit first, delegates to the
unpolarized `radiativeQ`, and returns unpolarized output: `Q = U = V = 0`,
`alphaInu` from `-log(Taunu)` (or `-infinity` below the `0.1` cutoff), all
other coefficients `0`. -/
def radiativeQPol (ops : MathOps R) (a : Generic R) :
    ℕ → DState → List R → R → List R → List R → Option (PolOut R × DState)
  | fuel, s, nuem, dsem, cph, co =>
    a.radQpol.elim
      (match fuel with
       | 0 => none
       | fuel+1 =>
         let s1 : DState := { s with polar := true }
         match radiativeQ ops a fuel s1 nuem dsem cph co with
         | none => none
         | some ((Inu, Taunu), s2) =>
           some (⟨Inu,
                  nuem.map fun _ => 0,
                  nuem.map fun _ => 0,
                  nuem.map fun _ => 0,
                  Taunu.map fun t => if t < 1/10 then ops.negInf else -(ops.log t),
                  nuem.map fun _ => 0,
                  nuem.map fun _ => 0,
                  nuem.map fun _ => 0,
                  nuem.map fun _ => 0,
                  nuem.map fun _ => 0,
                  nuem.map fun _ => 0⟩, s2))
      (fun q => some (q nuem dsem cph co, s))

/-- The per-frequency loop `for i: Inu[i] = emission(nuem[i], ...)` of the
vector-emission fallback, threading the bitmask state. -/
def emissionList (ops : MathOps R) (a : Generic R) :
    ℕ → DState → List R → R → List R → List R → Option (List R × DState)
  | _, s, [], _, _, _ => some ([], s)
  | 0, _, _ :: _, _, _, _ => none
  | fuel+1, s, nu :: rest, dsem, cph, co =>
    match emission ops a fuel s nu dsem cph co with
    | none => none
    | some (v, s') =>
      match emissionList ops a fuel s' rest dsem cph co with
      | none => none
      | some (vs, s'') => some (v :: vs, s'')

/-- The per-frequency loop `for i: Taunu[i] = transmission(nuem[i], ...)` of
the `radiativeQ` fallback, threading the bitmask state. -/
def transmissionList (ops : MathOps R) (a : Generic R) :
    ℕ → DState → List R → R → List R → List R → Option (List R × DState)
  | _, s, [], _, _, _ => some ([], s)
  | 0, _, _ :: _, _, _, _ => none
  | fuel+1, s, nu :: rest, dsem, cph, co =>
    match transmission ops a fuel s nu dsem cph co with
    | none => none
    | some (v, s') =>
      match transmissionList ops a fuel s' rest dsem cph co with
      | none => none
      | some (vs, s'') => some (v :: vs, s'')

end

/-- Inner loop `for (nu = nu1+0.5*dnux2; nu < nu2; nu += dnux2)
Icur += emission(nu, ...) * dnux2` of `Generic::integrateEmission`; `lfuel`
bounds the number of midpoints (the loop steps through reals). -/
def innerSum (ops : MathOps R) (a : Generic R) (efuel : ℕ) :
    ℕ → DState → R → R → R → R → List R → List R → R → Option (R × DState)
  | 0, _, _, _, _, _, _, _, _ => none
  | lfuel+1, s, nu, nu2, dnux2, dsem, cph, co, acc =>
    if nu < nu2 then
      match emission ops a efuel s nu dsem cph co with
      | none => none
      | some (e, s') =>
        innerSum ops a efuel lfuel s' (nu + dnux2) nu2 dnux2 dsem cph co
          (acc + e * dnux2)
    else some (acc, s)

/-- The `do { ... } while (fabs(Icur-Iprev) > 1e-2*Icur)` refinement loop of
`Generic::integrateEmission`: halve the step, add the new midpoints, halve
the running estimate, repeat until the relative change is at most 1%. -/
def quadLoop (ops : MathOps R) (a : Generic R) (efuel lfuel : ℕ) :
    ℕ → DState → R → R → R → R → R → List R → List R → Option (R × DState)
  | 0, _, _, _, _, _, _, _, _ => none
  | ofuel+1, s, nu1, nu2, dnux2, Icur, dsem, cph, co =>
    let Iprev := Icur
    let d := dnux2 * (1/2)
    match innerSum ops a efuel lfuel s (nu1 + (1/2) * d) nu2 d dsem cph co Icur with
    | none => none
    | some (acc, s') =>
      let Icur2 := acc * (1/2)
      if |Icur2 - Iprev| > (1/100) * Icur2 then
        quadLoop ops a efuel lfuel ofuel s' nu1 nu2 d Icur2 dsem cph co
      else some (Icur2, s')

/-- Model of scalar `Generic::integrateEmission(double nu1, double nu2, ...)`:
swap the bounds so the smaller is the lower limit, start from the 2-point
trapezoid estimate, then refine adaptively. -/
def integrateEmission (ops : MathOps R) (a : Generic R)
    (efuel lfuel ofuel : ℕ) (s : DState) (nu1 nu2 dsem : R) (cph co : List R) :
    Option (R × DState) :=
  let lo := if nu1 > nu2 then nu2 else nu1
  let hi := if nu1 > nu2 then nu1 else nu2
  match emission ops a efuel s lo dsem cph co with
  | none => none
  | some (Inu1, s1) =>
    match emission ops a efuel s1 hi dsem cph co with
    | none => none
    | some (Inu2, s2) =>
      let dnux2 := (hi - lo) * 2
      let Icur := (Inu2 + Inu1) * dnux2 * (1/4)
      quadLoop ops a efuel lfuel ofuel s2 lo hi dnux2 Icur dsem cph co

/-- Model of vector `Generic::integrateEmission(double *I, double const
*boundaries, size_t const *chaninds, ...)`: one adaptive band integral per
output channel, bounds looked up through the boundary-index pairs. -/
def integrateEmissionChannels (ops : MathOps R) (a : Generic R)
    (efuel lfuel ofuel : ℕ) (boundaries : List R) (chaninds : List ℕ)
    (dsem : R) (cph co : List R) :
    List ℕ → DState → Option (List R × DState)
  | [], s => some ([], s)
  | i :: rest, s =>
    match integrateEmission ops a efuel lfuel ofuel s
        (boundaries.getD (chaninds.getD (2*i) 0) 0)
        (boundaries.getD (chaninds.getD (2*i+1) 0) 0) dsem cph co with
    | none => none
    | some (v, s') =>
      match integrateEmissionChannels ops a efuel lfuel ofuel boundaries
          chaninds dsem cph co rest s' with
      | none => none
      | some (vs, s'') => some (v :: vs, s'')

/-- Model of `Generic::deltaMax(double coord[8])`: radial distance from the
coordinate kind (error for a missing metric or an incompatible kind), then
`deltaMaxInsideRMax` inside `rMax`, half the radius outside. -/
def deltaMax (ops : MathOps R) (a : Generic R) (coord : List R) : Option R :=
  match a.gg with
  | none => none
  | some gg =>
    match (match gg.coordKind with
           | CoordKind.spherical => some (coord.getD 1 0)
           | CoordKind.cartesian =>
             some (ops.sqrt (coord.getD 1 0 * coord.getD 1 0 +
               coord.getD 2 0 * coord.getD 2 0 + coord.getD 3 0 * coord.getD 3 0))
           | CoordKind.other => none) with
    | none => none
    | some rr => some (if rr < a.rmax then a.deltamaxinsidermax else rr * (1/2))

/-- Pointer-level model of the output record `Astrobj::Properties` for the
stride operators: each slot is a nullable buffer address (an integer offset
into the external image buffers). -/
structure Properties where
  intensity : Option ℤ
  time : Option ℤ
  distance : Option ℤ
  first_dmin : Option ℤ
  redshift : Option ℤ
  nbcrosseqplane : Option ℤ
  spectrum : Option ℤ
  stokesQ : Option ℤ
  stokesU : Option ℤ
  stokesV : Option ℤ
  binspectrum : Option ℤ
  impactcoords : Option ℤ
  user1 : Option ℤ
  user2 : Option ℤ
  user3 : Option ℤ
  user4 : Option ℤ
  user5 : Option ℤ
  offset : ℤ
deriving DecidableEq, Repr

/-- Model of `Astrobj::Properties::operator+=(ptrdiff_t ofset)`: advance
every non-null slot pointer by `ofset` elements, the 16-element
impact-coordinates snapshot by `16*ofset`. -/
def Properties.iadd (p : Properties) (ofset : ℤ) : Properties where
  intensity := p.intensity.map (· + ofset)
  time := p.time.map (· + ofset)
  distance := p.distance.map (· + ofset)
  first_dmin := p.first_dmin.map (· + ofset)
  redshift := p.redshift.map (· + ofset)
  nbcrosseqplane := p.nbcrosseqplane.map (· + ofset)
  spectrum := p.spectrum.map (· + ofset)
  stokesQ := p.stokesQ.map (· + ofset)
  stokesU := p.stokesU.map (· + ofset)
  stokesV := p.stokesV.map (· + ofset)
  binspectrum := p.binspectrum.map (· + ofset)
  impactcoords := p.impactcoords.map (· + 16 * ofset)
  user1 := p.user1.map (· + ofset)
  user2 := p.user2.map (· + ofset)
  user3 := p.user3.map (· + ofset)
  user4 := p.user4.map (· + ofset)
  user5 := p.user5.map (· + ofset)
  offset := p.offset

/-- Model of `Astrobj::Properties::operator++`: `(*this) += 1`. -/
def Properties.incr (p : Properties) : Properties := p.iadd 1

/-- Spectrometer collaborator at its interface boundary. -/
structure SpectroM (R : Type) where
  nsamples : ℕ
  midpoints : List R
  nboundaries : ℕ
  channelBoundaries : List R
  channelIndices : List ℕ

/-- Photon collaborator at its interface boundary.  `transAll` and
`transChan` are the transmissions read via `getTransmission`; `transmits`
logs each `transmit(index, value)` call (`none` = the overall `size_t(-1)`
slot); `transfers` logs each polarized `transfer(...)` call. -/
structure PhotonM (R : Type) where
  freqObs : R
  spectrometer : Option (SpectroM R)
  parallelTransport : Bool
  transAll : R
  transChan : ℕ → R
  transmits : List (Option ℕ × R)
  transfers : List (PolOut R)

/-- Value-level view of the output record during one hit: each requested
slot holds the value(s) at this record position (per-channel slots indexed
by channel, the `offset` stride being a memory-layout detail). -/
structure HitData (R : Type) where
  redshift : Option R
  time : Option R
  impactcoords : Option (List R)
  intensity : Option R
  binspectrum : Option (List R)
  spectrum : Option (List R)
  stokesQ : Option (List R)
  stokesU : Option (List R)
  stokesV : Option (List R)

/-- Redshift factor `ggredm1 = nu_em/nu_obs`:
`-gg_->ScalarProd(&coord_ph_hit[0], coord_obj_hit+4, &coord_ph_hit[4])`,
forced to `1.` when redshift tracking is disabled. -/
def hit_ggredm1 (a : Generic R) (gg : MetricM R) (cph co : List R) : R :=
  if a.noredshift then 1 else -(gg.scalarProd cph (co.drop 4) (cph.drop 4))

/-- Proper emitted path length `dsem = dlambda * ggredm1`,
`dlambda = dt / tdot`. -/
def hit_dsem (a : Generic R) (gg : MetricM R) (cph co : List R) (dt : R) : R :=
  (dt / cph.getD 4 0) * hit_ggredm1 a gg cph co

/-- The impact-coordinates step of `processHitQuantities`: write the
16-double snapshot (8 object-state then 8 photon-state components) only if
the first slot still holds the `DBL_MAX` sentinel, and report an error
(`GYOTO_ERROR`) if the photon state has more than 8 components while the
slot is still awaiting its first write. -/
def impactStep (ops : MathOps R) (cph co : List R) (dat : HitData R) :
    Option (HitData R) :=
  match dat.impactcoords with
  | some buf =>
    if buf.getD 0 0 = ops.dblMax then
      if 8 < cph.length then none
      else some { dat with impactcoords := some (co.take 8 ++ cph.take 8) }
    else some dat
  | none => some dat

/-- The binned-spectrum accumulation loop: per channel, add
`I[ii] * getTransmission(ii) * ggred^4` into the record and, when no
per-frequency spectrum is also requested, push a fresh per-channel
transmission onto the photon. -/
def binLoop (ops : MathOps R) (a : Generic R) (fuel : ℕ) (specNull : Bool)
    (ggredm1 ggred4 dsem : R) (nuobs I : List R) (trchan : ℕ → R)
    (cph co : List R) :
    List ℕ → List R → List (Option ℕ × R) → DState →
      Option (List R × List (Option ℕ × R) × DState)
  | [], bs, log, s => some (bs, log, s)
  | ii :: rest, bs, log, s =>
    let inc := I.getD ii 0 * trchan ii * ggred4
    let bs' := bs.set ii (bs.getD ii 0 + inc)
    if specNull then
      match transmission ops a fuel s (nuobs.getD ii 0 * ggredm1) dsem cph co with
      | none => none
      | some (t, s') =>
        binLoop ops a fuel specNull ggredm1 ggred4 dsem nuobs I trchan cph co
          rest bs' (log ++ [(some ii, t)]) s'
    else
      binLoop ops a fuel specNull ggredm1 ggred4 dsem nuobs I trchan cph co
        rest bs' log s

/-- The unpolarized spectrum loop: per channel, add
`Inu[ii] * getTransmission(ii) * ggred^3` into the record and push the new
per-channel transmission `Taunu[ii]` onto the photon. -/
def specLoop (ggred3 : R) (Inu Taunu : List R) (trchan : ℕ → R) :
    List ℕ → List R → List (Option ℕ × R) → List R × List (Option ℕ × R)
  | [], spec, log => (spec, log)
  | ii :: rest, spec, log =>
    let inc := Inu.getD ii 0 * trchan ii * ggred3
    specLoop ggred3 Inu Taunu trchan rest (spec.set ii (spec.getD ii 0 + inc))
      (log ++ [(some ii, Taunu.getD ii 0)])

/-- Guarded accumulation of a `ggred^3`-scaled coefficient array into an
optional per-channel output slot (the `if (data->spectrum) ... += inc`
pattern of the polarized branch). -/
def addScaledSlot (slot : Option (List R)) (vals : List R) (g3 : R)
    (idxs : List ℕ) : Option (List R) :=
  slot.map fun l =>
    idxs.foldl (fun acc ii => acc.set ii (acc.getD ii 0 + vals.getD ii 0 * g3)) l

/-- The intensity slot of `processHitQuantities`: add
`emission(freqObs*ggredm1, dsem, ...) * getTransmission(-1) * ggred^3`. -/
def stageIntensity (ops : MathOps R) (a : Generic R) (F : ℕ)
    (transAll freqObs ggredm1 ggred dsem : R) (cph co : List R)
    (dat3 : HitData R) (s : DState) : Option (HitData R × DState) :=
  match dat3.intensity with
  | none => some (dat3, s)
  | some v => do
    let (e, s1) ← emission ops a F s (freqObs * ggredm1) dsem cph co
    some ({ dat3 with
            intensity := some (v + e * transAll * (ggred * ggred * ggred)) },
          s1)

/-- The binned-spectrum slot of `processHitQuantities`: redshift the channel
boundaries, run the band quadrature per channel, accumulate with `ggred^4`
and the per-channel transmission, and (when no per-frequency spectrum is
also requested) push fresh per-channel transmissions onto the photon. -/
def stageBinspectrum (ops : MathOps R) (a : Generic R)
    (F efuel lfuel ofuel : ℕ) (spectro : Option (SpectroM R)) (nbnuobs : ℕ)
    (nuobs : List R) (transmits0 : List (Option ℕ × R)) (trchan : ℕ → R)
    (ggredm1 ggred dsem : R) (cph co : List R) (dat4 : HitData R)
    (s1 : DState) : Option (HitData R × List (Option ℕ × R) × DState) :=
  match dat4.binspectrum with
  | none => some (dat4, transmits0, s1)
  | some bs => do
    let spr ← spectro
    let boundaries := spr.channelBoundaries.map (· * ggredm1)
    let (I, s2a) ← integrateEmissionChannels ops a efuel lfuel ofuel
      boundaries spr.channelIndices dsem cph co (List.range nbnuobs) s1
    let (bs2, log2, s2b) ← binLoop ops a F dat4.spectrum.isNone ggredm1
      (ggred * ggred * ggred * ggred) dsem nuobs I trchan cph co
      (List.range nbnuobs) bs transmits0 s2a
    some ({ dat4 with binspectrum := some bs2 }, log2, s2b)

/-- The spectrum / Stokes branch of `processHitQuantities`: polarized
`radiativeQ` plus a `Photon::transfer` when the photon carries a
parallel-transported basis, the unpolarized `radiativeQ` plus per-channel
transmissions otherwise. -/
def stageSpectrum (ops : MathOps R) (a : Generic R) (F : ℕ)
    (parTransport : Bool) (transfers0 : List (PolOut R)) (trchan : ℕ → R)
    (nbnuobs : ℕ) (nuobs : List R) (ggredm1 ggred dsem : R)
    (cph co : List R) (dat5 : HitData R) (log1 : List (Option ℕ × R))
    (s2 : DState) :
    Option (HitData R × List (Option ℕ × R) × List (PolOut R) × DState) :=
  if dat5.spectrum.isSome ∨ dat5.stokesQ.isSome ∨ dat5.stokesU.isSome ∨
      dat5.stokesV.isSome then
    if parTransport then do
      let nuem := nuobs.map (· * ggredm1)
      let (po, sx) ← radiativeQPol ops a F s2 nuem dsem cph co
      let g3 := ggred * ggred * ggred
      let idxs := List.range nbnuobs
      some ({ dat5 with
              spectrum := addScaledSlot dat5.spectrum po.Inu g3 idxs,
              stokesQ := addScaledSlot dat5.stokesQ po.Qnu g3 idxs,
              stokesU := addScaledSlot dat5.stokesU po.Unu g3 idxs,
              stokesV := addScaledSlot dat5.stokesV po.Vnu g3 idxs },
            log1, transfers0 ++ [po], sx)
    else do
      let nuem := nuobs.map (· * ggredm1)
      let (ITau, sx) ← radiativeQ ops a F s2 nuem dsem cph co
      let spec ← dat5.spectrum
      let (spec2, log2) := specLoop (ggred * ggred * ggred) ITau.1 ITau.2
        trchan (List.range nbnuobs) spec log1
      some ({ dat5 with spectrum := some spec2 }, log2, transfers0, sx)
  else some (dat5, log1, transfers0, s2)

/-- Everything `Generic::processHitQuantities` does before its final
transmission update, for a non-null output record: redshift and time slots,
the guarded impact-coordinates snapshot, the intensity increment, the
binned-spectrum loop, and the polarized / unpolarized spectrum branch.
Returns the updated record, the accumulated `transmit` log, the accumulated
`transfer` log, and the dispatcher state. -/
def processHitCore (ops : MathOps R) (a : Generic R)
    (F efuel lfuel ofuel : ℕ) (ph0 : PhotonM R) (cph co : List R) (dt : R)
    (dat0 : HitData R) (s : DState) (gg : MetricM R) :
    Option (HitData R × List (Option ℕ × R) × List (PolOut R) × DState) := do
  let freqObs := ph0.freqObs
  let nbnuobs : ℕ := match ph0.spectrometer with
    | some spr => spr.nsamples
    | none => 0
  let nuobs : List R := match ph0.spectrometer with
    | some spr => spr.midpoints
    | none => []
  let ggredm1 := hit_ggredm1 a gg cph co
  let ggred := 1 / ggredm1
  let dsem := hit_dsem a gg cph co dt
  let dat1 := { dat0 with redshift := dat0.redshift.map fun _ => ggred }
  let dat2 := { dat1 with time := dat1.time.map fun _ => cph.getD 0 0 }
  let dat3 ← impactStep ops cph co dat2
  let (dat4, s1) ← stageIntensity ops a F ph0.transAll freqObs ggredm1 ggred
    dsem cph co dat3 s
  let (dat5, log1, s2) ← stageBinspectrum ops a F efuel lfuel ofuel
    ph0.spectrometer nbnuobs nuobs ph0.transmits ph0.transChan ggredm1 ggred
    dsem cph co dat4 s1
  let (dat6, log2, tf2, s3) ← stageSpectrum ops a F ph0.parallelTransport
    ph0.transfers ph0.transChan nbnuobs nuobs ggredm1 ggred dsem cph co dat5
    log1 s2
  some (dat6, log2, tf2, s3)

/-- Model of `Generic::processHitQuantities(Photon *ph, ...)`.  With no
output record requested nothing happens; otherwise all requested slots are
accumulated (`processHitCore`) and then, regardless of which slot branches
executed, the scalar transmission at the observed frequency redshifted into
the emitted frame is pushed onto the photon's overall transmission record. -/
def processHitQuantities (ops : MathOps R) (a : Generic R)
    (F efuel lfuel ofuel : ℕ) (ph0 : PhotonM R) (cph co : List R) (dt : R)
    (dat? : Option (HitData R)) (s : DState) :
    Option (PhotonM R × Option (HitData R) × DState) :=
  match a.gg with
  | none => none
  | some gg =>
    match dat? with
    | none => some (ph0, none, s)
    | some dat0 =>
      match processHitCore ops a F efuel lfuel ofuel ph0 cph co dt dat0 s gg with
      | none => none
      | some (dat, log, tf, s4) =>
        match transmission ops a F s4 (ph0.freqObs * hit_ggredm1 a gg cph co)
            (hit_dsem a gg cph co dt) cph co with
        | none => none
        | some (t, s5) =>
          some ({ ph0 with transmits := log ++ [(none, t)], transfers := tf },
                some dat, s5)

/-! ## Value lemmas for the dispatcher

The lemmas below compute the dispatcher's fallback chains in closed form
for the override configurations the claims are about.  Fuel hypotheses are
of the form `length + constant ≤ fuel`; any larger fuel gives the same
result. -/

theorem emission_override (ops : MathOps R) (a : Generic R)
    (e : R → R → List R → List R → R) (ha : a.emS = some e)
    (fuel : ℕ) (s : DState) (nuem dsem : R) (cph co : List R) :
    emission ops a fuel s nuem dsem cph co = some (e nuem dsem cph co, s) := by
  rw [emission.eq_def]
  rw [ha]
  rfl

theorem emissionVec_override (ops : MathOps R) (a : Generic R)
    (f : List R → R → List R → List R → List R) (ha : a.emV = some f)
    (fuel : ℕ) (s : DState) (l : List R) (dsem : R) (cph co : List R) :
    emissionVec ops a fuel s l dsem cph co = some (f l dsem cph co, s) := by
  rw [emissionVec.eq_def]
  rw [ha]
  rfl

theorem radiativeQ_override (ops : MathOps R) (a : Generic R)
    (q : List R → R → List R → List R → List R × List R) (ha : a.radQ = some q)
    (fuel : ℕ) (s : DState) (l : List R) (dsem : R) (cph co : List R) :
    radiativeQ ops a fuel s l dsem cph co = some (q l dsem cph co, s) := by
  rw [radiativeQ.eq_def]
  rw [ha]
  rfl

theorem radiativeQPol_override (ops : MathOps R) (a : Generic R)
    (q : List R → R → List R → List R → PolOut R) (ha : a.radQpol = some q)
    (fuel : ℕ) (s : DState) (l : List R) (dsem : R) (cph co : List R) :
    radiativeQPol ops a fuel s l dsem cph co = some (q l dsem cph co, s) := by
  rw [radiativeQPol.eq_def]
  rw [ha]
  rfl

theorem transmission_override (ops : MathOps R) (a : Generic R)
    (t : R → R → List R → List R → R) (ha : a.trans = some t)
    (fuel : ℕ) (s : DState) (nuem dsem : R) (cph co : List R) :
    transmission ops a fuel s nuem dsem cph co =
      some (t nuem dsem cph co, s) := by
  rw [transmission.eq_def]
  rw [ha]
  rfl

theorem emission_fallback (ops : MathOps R) (a : Generic R)
    (ha : a.emS = none) (fuel : ℕ) (nuem dsem : R) (cph co : List R) :
    emission ops a (fuel + 1) ⟨true, true, true⟩ nuem dsem cph co =
      some (if a.flag_radtransf then dsem else 1, ⟨true, true, true⟩) := by
  rw [emission.eq_def]
  rw [ha]
  simp

theorem transmission_flag (ops : MathOps R) (a : Generic R)
    (ha : a.trans = none) (fuel : ℕ) (s : DState)
    (hu : s.unpol = true) (hp : s.polar = true) (nuem dsem : R)
    (cph co : List R) :
    transmission ops a (fuel + 1) s nuem dsem cph co =
      some (if a.flag_radtransf then 1 else 0, s) := by
  rw [transmission.eq_def]
  rw [ha]
  simp [hu, hp]

theorem emissionList_override (ops : MathOps R) (a : Generic R)
    (e : R → R → List R → List R → R) (ha : a.emS = some e)
    (dsem : R) (cph co : List R) :
    ∀ (l : List R) (fuel : ℕ), l.length ≤ fuel → ∀ s : DState,
      emissionList ops a fuel s l dsem cph co =
        some (l.map fun nu => e nu dsem cph co, s) := by
  intro l
  induction l with
  | nil => intro fuel _ s; cases fuel <;> simp [emissionList]
  | cons nu rest ih =>
    intro fuel hf s
    cases fuel with
    | zero => simp at hf
    | succ f =>
      have hrest := ih f (by simpa using hf) s
      simp [emissionList, emission_override ops a e ha, hrest]

theorem emissionList_fallback (ops : MathOps R) (a : Generic R)
    (ha : a.emS = none) (dsem : R) (cph co : List R) :
    ∀ (l : List R) (fuel : ℕ), l.length + 1 ≤ fuel →
      emissionList ops a fuel ⟨true, true, true⟩ l dsem cph co =
        some (List.replicate l.length (if a.flag_radtransf then dsem else 1),
              ⟨true, true, true⟩) := by
  intro l
  induction l with
  | nil => intro fuel _; cases fuel <;> simp [emissionList]
  | cons nu rest ih =>
    intro fuel hf
    cases fuel with
    | zero => simp at hf
    | succ f =>
      cases f with
      | zero => simp at hf
      | succ f' =>
        have hrest := ih (f' + 1) (by simpa using hf)
        simp [emissionList, emission_fallback ops a ha, hrest, List.replicate_succ]

theorem transmissionList_flag (ops : MathOps R) (a : Generic R)
    (ha : a.trans = none) (dsem : R) (cph co : List R) :
    ∀ (l : List R) (fuel : ℕ), l.length + 1 ≤ fuel → ∀ s : DState,
      s.unpol = true → s.polar = true →
      transmissionList ops a fuel s l dsem cph co =
        some (List.replicate l.length (if a.flag_radtransf then 1 else 0), s) := by
  intro l
  induction l with
  | nil => intro fuel _ s _ _; cases fuel <;> simp [transmissionList]
  | cons nu rest ih =>
    intro fuel hf s hu hp
    cases fuel with
    | zero => simp at hf
    | succ f =>
      cases f with
      | zero => simp at hf
      | succ f' =>
        have hrest := ih (f' + 1) (by simpa using hf) s hu hp
        simp [transmissionList, transmission_flag ops a ha f' s hu hp, hrest,
          List.replicate_succ]

/-! ### Objects overriding only the scalar emission primitive -/

theorem emissionVec_emS_ready (ops : MathOps R) (a : Generic R)
    (e : R → R → List R → List R → R) (ha : a.emS = some e)
    (hv : a.emV = none) (l : List R) (dsem : R) (cph co : List R)
    (fuel : ℕ) (hf : l.length + 1 ≤ fuel) (se : Bool) :
    emissionVec ops a fuel ⟨true, true, se⟩ l dsem cph co =
      some (l.map fun nu => e nu dsem cph co, ⟨true, true, true⟩) := by
  cases fuel with
  | zero => simp at hf
  | succ f =>
    have h1 := emissionList_override ops a e ha dsem cph co l f
      (by simpa using hf) ⟨true, true, true⟩
    rw [emissionVec.eq_def, hv]
    simp [h1]

theorem radiativeQ_emS_polar (ops : MathOps R) (a : Generic R)
    (e : R → R → List R → List R → R) (ha : a.emS = some e)
    (hv : a.emV = none) (hq : a.radQ = none) (ht : a.trans = none)
    (l : List R) (dsem : R) (cph co : List R)
    (fuel : ℕ) (hf : l.length + 3 ≤ fuel) (su se : Bool) :
    radiativeQ ops a fuel ⟨true, su, se⟩ l dsem cph co =
      some ((l.map fun nu => e nu dsem cph co,
             List.replicate l.length (if a.flag_radtransf then 1 else 0)),
            ⟨true, true, true⟩) := by
  cases fuel with
  | zero => simp at hf
  | succ f =>
    have h1 := emissionVec_emS_ready ops a e ha hv l dsem cph co f
      (by omega) se
    have h2 := transmissionList_flag ops a ht dsem cph co l f (by omega)
      ⟨true, true, true⟩ rfl rfl
    rw [radiativeQ.eq_def, hq]
    simp [h1, h2]

theorem radiativeQPol_emS_polarSet (ops : MathOps R) (a : Generic R)
    (e : R → R → List R → List R → R) (ha : a.emS = some e)
    (hv : a.emV = none) (hq : a.radQ = none) (hqp : a.radQpol = none)
    (ht : a.trans = none) (l : List R) (dsem : R) (cph co : List R)
    (fuel : ℕ) (hf : l.length + 4 ≤ fuel) (sp su se : Bool) :
    radiativeQPol ops a fuel ⟨sp, su, se⟩ l dsem cph co =
      some (⟨l.map fun nu => e nu dsem cph co,
             List.replicate l.length 0, List.replicate l.length 0,
             List.replicate l.length 0,
             List.replicate l.length
               (if (if a.flag_radtransf then (1 : R) else 0) < 1/10 then
                  ops.negInf
                else -(ops.log (if a.flag_radtransf then 1 else 0))),
             List.replicate l.length 0, List.replicate l.length 0,
             List.replicate l.length 0, List.replicate l.length 0,
             List.replicate l.length 0, List.replicate l.length 0⟩,
            ⟨true, true, true⟩) := by
  cases fuel with
  | zero => simp at hf
  | succ f =>
    have hin := radiativeQ_emS_polar ops a e ha hv hq ht l dsem cph co f
      (by omega) su se
    rw [radiativeQPol.eq_def, hqp]
    simp [hin]

theorem radiativeQ_emS (ops : MathOps R) (a : Generic R)
    (e : R → R → List R → List R → R) (ha : a.emS = some e)
    (hv : a.emV = none) (hq : a.radQ = none) (hqp : a.radQpol = none)
    (ht : a.trans = none) (l : List R) (dsem : R) (cph co : List R)
    (fuel : ℕ) (hf : l.length + 6 ≤ fuel) (s : DState) :
    radiativeQ ops a fuel s l dsem cph co =
      some ((l.map fun nu => e nu dsem cph co,
             List.replicate l.length (if a.flag_radtransf then 1 else 0)),
            ⟨true, true, true⟩) := by
  obtain ⟨sp, su, se⟩ := s
  cases sp with
  | true =>
    exact radiativeQ_emS_polar ops a e ha hv hq ht l dsem cph co fuel (by omega) su se
  | false =>
    cases fuel with
    | zero => simp at hf
    | succ f =>
      have hqpol := radiativeQPol_emS_polarSet ops a e ha hv hq hqp ht l dsem
        cph co f (by omega) false true se
      have h2 := transmissionList_flag ops a ht dsem cph co l f
        (by omega) ⟨true, true, true⟩ rfl rfl
      rw [radiativeQ.eq_def, hq]
      simp [hqpol, h2]

theorem radiativeQPol_emS (ops : MathOps R) (a : Generic R)
    (e : R → R → List R → List R → R) (ha : a.emS = some e)
    (hv : a.emV = none) (hq : a.radQ = none) (hqp : a.radQpol = none)
    (ht : a.trans = none) (l : List R) (dsem : R) (cph co : List R)
    (fuel : ℕ) (hf : l.length + 7 ≤ fuel) (s : DState) :
    radiativeQPol ops a fuel s l dsem cph co =
      some (⟨l.map fun nu => e nu dsem cph co,
             List.replicate l.length 0, List.replicate l.length 0,
             List.replicate l.length 0,
             List.replicate l.length
               (if (if a.flag_radtransf then (1 : R) else 0) < 1/10 then
                  ops.negInf
                else -(ops.log (if a.flag_radtransf then 1 else 0))),
             List.replicate l.length 0, List.replicate l.length 0,
             List.replicate l.length 0, List.replicate l.length 0,
             List.replicate l.length 0, List.replicate l.length 0⟩,
            ⟨true, true, true⟩) := by
  obtain ⟨sp, su, se⟩ := s
  exact radiativeQPol_emS_polarSet ops a e ha hv hq hqp ht l dsem cph co fuel
    (by omega) sp su se

/-! ### Objects overriding no radiative-transfer primitive at all -/

theorem emissionVec_none_ready (ops : MathOps R) (a : Generic R)
    (hs : a.emS = none) (hv : a.emV = none)
    (l : List R) (dsem : R) (cph co : List R)
    (fuel : ℕ) (hf : l.length + 2 ≤ fuel) (se : Bool) :
    emissionVec ops a fuel ⟨true, true, se⟩ l dsem cph co =
      some (List.replicate l.length (if a.flag_radtransf then dsem else 1),
            ⟨true, true, true⟩) := by
  cases fuel with
  | zero => simp at hf
  | succ f =>
    have h1 := emissionList_fallback ops a hs dsem cph co l f (by omega)
    rw [emissionVec.eq_def, hv]
    simp [h1]

theorem radiativeQ_none_polar (ops : MathOps R) (a : Generic R)
    (hs : a.emS = none) (hv : a.emV = none) (hq : a.radQ = none)
    (ht : a.trans = none) (l : List R) (dsem : R) (cph co : List R)
    (fuel : ℕ) (hf : l.length + 4 ≤ fuel) (su se : Bool) :
    radiativeQ ops a fuel ⟨true, su, se⟩ l dsem cph co =
      some ((List.replicate l.length (if a.flag_radtransf then dsem else 1),
             List.replicate l.length (if a.flag_radtransf then 1 else 0)),
            ⟨true, true, true⟩) := by
  cases fuel with
  | zero => simp at hf
  | succ f =>
    have h1 := emissionVec_none_ready ops a hs hv l dsem cph co f (by omega) se
    have h2 := transmissionList_flag ops a ht dsem cph co l f (by omega)
      ⟨true, true, true⟩ rfl rfl
    rw [radiativeQ.eq_def, hq]
    simp [h1, h2]

theorem radiativeQPol_none_anyState (ops : MathOps R) (a : Generic R)
    (hs : a.emS = none) (hv : a.emV = none) (hq : a.radQ = none)
    (hqp : a.radQpol = none) (ht : a.trans = none)
    (l : List R) (dsem : R) (cph co : List R)
    (fuel : ℕ) (hf : l.length + 5 ≤ fuel) (sp su se : Bool) :
    radiativeQPol ops a fuel ⟨sp, su, se⟩ l dsem cph co =
      some (⟨List.replicate l.length (if a.flag_radtransf then dsem else 1),
             List.replicate l.length 0, List.replicate l.length 0,
             List.replicate l.length 0,
             List.replicate l.length
               (if (if a.flag_radtransf then (1 : R) else 0) < 1/10 then
                  ops.negInf
                else -(ops.log (if a.flag_radtransf then 1 else 0))),
             List.replicate l.length 0, List.replicate l.length 0,
             List.replicate l.length 0, List.replicate l.length 0,
             List.replicate l.length 0, List.replicate l.length 0⟩,
            ⟨true, true, true⟩) := by
  cases fuel with
  | zero => simp at hf
  | succ f =>
    have hin := radiativeQ_none_polar ops a hs hv hq ht l dsem cph co f
      (by omega) su se
    rw [radiativeQPol.eq_def, hqp]
    simp [hin]

theorem radiativeQ_none (ops : MathOps R) (a : Generic R)
    (hs : a.emS = none) (hv : a.emV = none) (hq : a.radQ = none)
    (hqp : a.radQpol = none) (ht : a.trans = none)
    (l : List R) (dsem : R) (cph co : List R)
    (fuel : ℕ) (hf : l.length + 7 ≤ fuel) (s : DState) :
    radiativeQ ops a fuel s l dsem cph co =
      some ((List.replicate l.length (if a.flag_radtransf then dsem else 1),
             List.replicate l.length (if a.flag_radtransf then 1 else 0)),
            ⟨true, true, true⟩) := by
  obtain ⟨sp, su, se⟩ := s
  cases sp with
  | true =>
    exact radiativeQ_none_polar ops a hs hv hq ht l dsem cph co fuel (by omega) su se
  | false =>
    cases fuel with
    | zero => simp at hf
    | succ f =>
      have hqpol := radiativeQPol_none_anyState ops a hs hv hq hqp ht l dsem
        cph co f (by omega) false true se
      have h2 := transmissionList_flag ops a ht dsem cph co l f
        (by omega) ⟨true, true, true⟩ rfl rfl
      rw [radiativeQ.eq_def, hq]
      simp [hqpol, h2]

theorem emissionVec_none (ops : MathOps R) (a : Generic R)
    (hs : a.emS = none) (hv : a.emV = none) (hq : a.radQ = none)
    (hqp : a.radQpol = none) (ht : a.trans = none)
    (l : List R) (dsem : R) (cph co : List R)
    (fuel : ℕ) (hf : l.length + 8 ≤ fuel) (s : DState) :
    emissionVec ops a fuel s l dsem cph co =
      some (List.replicate l.length (if a.flag_radtransf then dsem else 1),
            ⟨true, true, true⟩) := by
  obtain ⟨sp, su, se⟩ := s
  cases fuel with
  | zero => simp at hf
  | succ f =>
    cases su with
    | false =>
      have h1 := radiativeQ_none ops a hs hv hq hqp ht l dsem cph co f
        (by omega) ⟨sp, false, true⟩
      rw [emissionVec.eq_def, hv]
      simp [h1]
    | true =>
      cases sp with
      | false =>
        have h1 := radiativeQPol_none_anyState ops a hs hv hq hqp ht l dsem
          cph co f (by omega) false true true
        rw [emissionVec.eq_def, hv]
        simp [h1]
      | true =>
        have h1 := emissionList_fallback ops a hs dsem cph co l f (by omega)
        rw [emissionVec.eq_def, hv]
        simp [h1]

theorem emission_none (ops : MathOps R) (a : Generic R)
    (hs : a.emS = none) (hv : a.emV = none) (hq : a.radQ = none)
    (hqp : a.radQpol = none) (ht : a.trans = none)
    (nuem dsem : R) (cph co : List R)
    (fuel : ℕ) (hf : 10 ≤ fuel) (s : DState) :
    emission ops a fuel s nuem dsem cph co =
      some (if a.flag_radtransf then dsem else 1, ⟨true, true, true⟩) := by
  obtain ⟨sp, su, se⟩ := s
  cases fuel with
  | zero => simp at hf
  | succ f =>
    cases se with
    | false =>
      have h1 := emissionVec_none ops a hs hv hq hqp ht [nuem] dsem cph co f
        (by simp; omega) ⟨sp, su, false⟩
      rw [emission.eq_def, hs]
      simp [h1]
    | true =>
      cases sp with
      | false =>
        have h1 := radiativeQ_none ops a hs hv hq hqp ht [nuem] dsem cph co f
          (by simp; omega) ⟨false, su, true⟩
        rw [emission.eq_def, hs]
        simp [h1]
      | true =>
        cases su with
        | false =>
          have h1 := radiativeQ_none ops a hs hv hq hqp ht [nuem] dsem cph co f
            (by simp; omega) ⟨true, false, true⟩
          rw [emission.eq_def, hs]
          simp [h1]
        | true =>
          rw [emission.eq_def, hs]
          simp

theorem transmission_none (ops : MathOps R) (a : Generic R)
    (hs : a.emS = none) (hv : a.emV = none) (hq : a.radQ = none)
    (hqp : a.radQpol = none) (ht : a.trans = none)
    (nuem dsem : R) (cph co : List R)
    (fuel : ℕ) (hf : 10 ≤ fuel) (s : DState) :
    (transmission ops a fuel s nuem dsem cph co).map Prod.fst =
      some (if a.flag_radtransf then 1 else 0) := by
  obtain ⟨sp, su, se⟩ := s
  cases fuel with
  | zero => simp at hf
  | succ f =>
    by_cases hb : su = true ∧ sp = true
    · obtain ⟨h1, h2⟩ := hb
      subst h1; subst h2
      rw [transmission_flag ops a ht f ⟨true, true, se⟩ rfl rfl nuem dsem cph co]
      simp
    · have h1 := radiativeQ_none ops a hs hv hq hqp ht [nuem] dsem cph co f
        (by simp; omega) ⟨sp, su, se⟩
      rw [transmission.eq_def, ht]
      have hcond : su = false ∨ sp = false := by
        cases su <;> cases sp <;> simp_all
      simp [hcond, h1]

/-! ## Claim theorems C1 - C3 -/

/-- C1: for every object that overrides only the scalar emission primitive
(all other primitives being the generic fallbacks) and all finite inputs,
invoking the polarized `radiativeQ` primitive terminates: from any bitmask
state, every fuel of at least `nuem.length + 7` makes the fueled fallback
chain return the same defined result, so the mutual recursion
(polarized radiativeQ -> unpolarized radiativeQ -> vector emission ->
scalar emission) bottoms out once the capability bits are set. -/
theorem claim1_polarized_radiativeQ_terminates (ops : MathOps R)
    (gg : Option (MetricM R)) (rm dm : R) (fl nr : Bool)
    (e : R → R → List R → List R → R) (s : DState)
    (nuem : List R) (dsem : R) (cph co : List R) :
    ∃ out : PolOut R × DState, ∀ k : ℕ,
      radiativeQPol ops ⟨gg, rm, dm, fl, nr, some e, none, none, none, none⟩
        (nuem.length + (k + 7)) s nuem dsem cph co = some out := by
  refine ⟨(⟨nuem.map fun nu => e nu dsem cph co,
            List.replicate nuem.length 0, List.replicate nuem.length 0,
            List.replicate nuem.length 0,
            List.replicate nuem.length
              (if (if fl then (1 : R) else 0) < 1/10 then ops.negInf
               else -(ops.log (if fl then 1 else 0))),
            List.replicate nuem.length 0, List.replicate nuem.length 0,
            List.replicate nuem.length 0, List.replicate nuem.length 0,
            List.replicate nuem.length 0, List.replicate nuem.length 0⟩,
           ⟨true, true, true⟩), fun k => ?_⟩
  exact radiativeQPol_emS ops _ e rfl rfl rfl rfl rfl nuem dsem cph co _
    (by omega) s

/-- C2: for every object that overrides only the scalar emission primitive,
a polarized `radiativeQ` call returns, at every frequency index,
`Qnu = Unu = Vnu = 0` and `Inu` equal to the overridden scalar
`emission(nuem[i], dsem, coord_ph, coord_obj)`. -/
theorem claim2_polarized_falls_back_to_scalar_emission (ops : MathOps R)
    (gg : Option (MetricM R)) (rm dm : R) (fl nr : Bool)
    (e : R → R → List R → List R → R) (s : DState)
    (nuem : List R) (dsem : R) (cph co : List R) (k : ℕ) :
    (radiativeQPol ops ⟨gg, rm, dm, fl, nr, some e, none, none, none, none⟩
        (nuem.length + (k + 7)) s nuem dsem cph co).map
      (fun p => (p.1.Inu, p.1.Qnu, p.1.Unu, p.1.Vnu)) =
      some (nuem.map fun nu => e nu dsem cph co,
            List.replicate nuem.length 0,
            List.replicate nuem.length 0,
            List.replicate nuem.length 0) := by
  rw [radiativeQPol_emS ops _ e rfl rfl rfl rfl rfl nuem dsem cph co _
    (by omega) s]
  rfl

/-- C3: for every object with no overridden radiative-transfer primitive at
all, from any bitmask state and for all finite inputs, the scalar emission
primitive returns `dsem` when `opticallyThin` is true and `1.0` when it is
false, and the scalar transmission primitive returns `1.0` when
`opticallyThin` is true and `0.0` when it is false (the flag cast to a
transmission value). -/
theorem claim3_default_emission_and_transmission (ops : MathOps R)
    (gg : Option (MetricM R)) (rm dm : R) (fl nr : Bool) (s : DState)
    (nuem dsem : R) (cph co : List R) (k : ℕ) :
    (emission ops ⟨gg, rm, dm, fl, nr, none, none, none, none, none⟩
        (k + 10) s nuem dsem cph co).map Prod.fst =
      some (if fl then dsem else 1) ∧
    (transmission ops ⟨gg, rm, dm, fl, nr, none, none, none, none, none⟩
        (k + 10) s nuem dsem cph co).map Prod.fst =
      some (if fl then 1 else 0) := by
  constructor
  · rw [emission_none ops _ rfl rfl rfl rfl rfl nuem dsem cph co _ (by omega) s]
    rfl
  · exact transmission_none ops _ rfl rfl rfl rfl rfl nuem dsem cph co _
      (by omega) s

/-! ## Claim theorems C7 and C10 -/

/-- C7: with a metric attached, the step-size policy computes the radial
distance `rr` (the radial coordinate for a spherical-kind metric, the
Euclidean norm of the three position components for a Cartesian-kind
metric) and returns `deltaMaxInsideRMax` when `rr` is inside `rMax` and
`rr/2` otherwise. -/
theorem claim7_deltaMax_policy (ops : MathOps R) (a : Generic R)
    (gg : MetricM R) (hgg : a.gg = some gg) (coord : List R) :
    (gg.coordKind = CoordKind.spherical →
      deltaMax ops a coord =
        some (if coord.getD 1 0 < a.rmax then a.deltamaxinsidermax
              else coord.getD 1 0 * (1/2))) ∧
    (gg.coordKind = CoordKind.cartesian →
      deltaMax ops a coord =
        some (if ops.sqrt (coord.getD 1 0 * coord.getD 1 0 +
                coord.getD 2 0 * coord.getD 2 0 +
                coord.getD 3 0 * coord.getD 3 0) < a.rmax then
                a.deltamaxinsidermax
              else ops.sqrt (coord.getD 1 0 * coord.getD 1 0 +
                coord.getD 2 0 * coord.getD 2 0 +
                coord.getD 3 0 * coord.getD 3 0) * (1/2))) := by
  constructor
  · intro hk
    simp [deltaMax, hgg, hk]
  · intro hk
    simp [deltaMax, hgg, hk]

/-- C10: advancing the output record by a stride `n` via `operator+=` moves
every non-null slot pointer forward by exactly `n` elements, except the
impact-coordinates pointer which moves by `16*n`; null slots remain null
(`Option.map` over the slot), the stride `offset` is unchanged, and
`operator++` is advancing by `1`. -/
theorem claim10_properties_stride (p : Properties) (n : ℤ) :
    (p.iadd n).intensity = p.intensity.map (· + n) ∧
    (p.iadd n).time = p.time.map (· + n) ∧
    (p.iadd n).distance = p.distance.map (· + n) ∧
    (p.iadd n).first_dmin = p.first_dmin.map (· + n) ∧
    (p.iadd n).redshift = p.redshift.map (· + n) ∧
    (p.iadd n).nbcrosseqplane = p.nbcrosseqplane.map (· + n) ∧
    (p.iadd n).spectrum = p.spectrum.map (· + n) ∧
    (p.iadd n).stokesQ = p.stokesQ.map (· + n) ∧
    (p.iadd n).stokesU = p.stokesU.map (· + n) ∧
    (p.iadd n).stokesV = p.stokesV.map (· + n) ∧
    (p.iadd n).binspectrum = p.binspectrum.map (· + n) ∧
    (p.iadd n).impactcoords = p.impactcoords.map (· + 16 * n) ∧
    (p.iadd n).user1 = p.user1.map (· + n) ∧
    (p.iadd n).user2 = p.user2.map (· + n) ∧
    (p.iadd n).user3 = p.user3.map (· + n) ∧
    (p.iadd n).user4 = p.user4.map (· + n) ∧
    (p.iadd n).user5 = p.user5.map (· + n) ∧
    (p.iadd n).offset = p.offset ∧
    p.incr = p.iadd 1 :=
  ⟨rfl, rfl, rfl, rfl, rfl, rfl, rfl, rfl, rfl, rfl, rfl, rfl, rfl, rfl, rfl,
   rfl, rfl, rfl, rfl⟩

/-! ## The band quadrature integrator on a constant emission coefficient -/

theorem innerSum_const_empty (ops : MathOps R) (a : Generic R)
    (efuel j : ℕ) (s : DState) (x b d dsem : R) (cph co : List R) (acc : R)
    (h1 : ¬ (x < b)) :
    innerSum ops a efuel (j + 1) s x b d dsem cph co acc = some (acc, s) := by
  simp [innerSum, h1]

theorem innerSum_const_one (ops : MathOps R) (a : Generic R) (c : R)
    (ha : a.emS = some fun _ _ _ _ => c)
    (efuel j : ℕ) (s : DState) (x b d dsem : R) (cph co : List R) (acc : R)
    (h1 : x < b) (h2 : ¬ (x + d < b)) :
    innerSum ops a efuel (j + 2) s x b d dsem cph co acc =
      some (acc + c * d, s) := by
  have he := emission_override ops a _ ha (efuel) s x dsem cph co
  simp [innerSum, h1, h2, he]

theorem quadLoop_const (ops : MathOps R) (a : Generic R) (c : R)
    (ha : a.emS = some fun _ _ _ _ => c) (hc : 0 ≤ c)
    (lo hi : R) (hle : lo ≤ hi) (s : DState) (dsem : R) (cph co : List R)
    (efuel j k : ℕ) :
    quadLoop ops a efuel (j + 2) (k + 1) s lo hi ((hi - lo) * 2)
        ((c + c) * ((hi - lo) * 2) * (1/4)) dsem cph co =
      some (c * (hi - lo), s) := by
  rcases eq_or_lt_of_le hle with heq | hlt
  · subst heq
    have h1 : ¬ (lo + (1/2) * (((lo - lo) * 2) * (1/2)) < lo) := by
      rw [show lo + (1/2) * (((lo - lo) * 2) * (1/2)) = lo from by ring]
      exact lt_irrefl lo
    have hinner := innerSum_const_empty ops a efuel (j + 1) s
      (lo + (1/2) * (((lo - lo) * 2) * (1/2))) lo (((lo - lo) * 2) * (1/2))
      dsem cph co ((c + c) * ((lo - lo) * 2) * (1/4)) h1
    have hno : ¬ (|((c + c) * ((lo - lo) * 2) * (1/4)) * (1/2) -
        (c + c) * ((lo - lo) * 2) * (1/4)| >
        (1/100) * (((c + c) * ((lo - lo) * 2) * (1/4)) * (1/2))) := by
      rw [show ((c + c) * ((lo - lo) * 2) * (1/4)) * (1/2) -
            (c + c) * ((lo - lo) * 2) * (1/4) = 0 from by ring,
          show (1/100) * (((c + c) * ((lo - lo) * 2) * (1/4)) * (1/2)) =
            0 from by ring]
      simp
    rw [quadLoop]
    simp only [hinner, hno, if_false, abs_zero]
    rw [show ((c + c) * ((lo - lo) * 2) * (1/4)) * (1/2) = c * (lo - lo)
      from by ring]
  · have h1 : lo + (1/2) * (((hi - lo) * 2) * (1/2)) < hi := by nlinarith
    have h2 : ¬ (lo + (1/2) * (((hi - lo) * 2) * (1/2)) +
        ((hi - lo) * 2) * (1/2) < hi) := by nlinarith
    have hinner := innerSum_const_one ops a c ha efuel j s
      (lo + (1/2) * (((hi - lo) * 2) * (1/2))) hi (((hi - lo) * 2) * (1/2))
      dsem cph co ((c + c) * ((hi - lo) * 2) * (1/4)) h1 h2
    have hval : ((c + c) * ((hi - lo) * 2) * (1/4) +
        c * (((hi - lo) * 2) * (1/2))) * (1/2) = c * (hi - lo) := by ring
    have hprev : (c + c) * ((hi - lo) * 2) * (1/4) = c * (hi - lo) := by ring
    have hno : ¬ (|((c + c) * ((hi - lo) * 2) * (1/4) +
        c * (((hi - lo) * 2) * (1/2))) * (1/2) -
        (c + c) * ((hi - lo) * 2) * (1/4)| >
        (1/100) * (((c + c) * ((hi - lo) * 2) * (1/4) +
          c * (((hi - lo) * 2) * (1/2))) * (1/2))) := by
      rw [hval, hprev]
      rw [show c * (hi - lo) - c * (hi - lo) = 0 from by ring]
      simp only [abs_zero, gt_iff_lt, not_lt]
      nlinarith [mul_nonneg hc (sub_nonneg.mpr (le_of_lt hlt))]
    rw [quadLoop]
    simp only [hinner, hno, if_false]
    rw [hval]

theorem integrateEmission_const (ops : MathOps R) (a : Generic R) (c : R)
    (ha : a.emS = some fun _ _ _ _ => c) (hc : 0 ≤ c)
    (s : DState) (nu1 nu2 dsem : R) (cph co : List R) (efuel j k : ℕ) :
    integrateEmission ops a efuel (j + 2) (k + 1) s nu1 nu2 dsem cph co =
      some (c * |nu2 - nu1|, s) := by
  rcases le_or_lt nu1 nu2 with h | h
  · have hsw : ¬ (nu1 > nu2) := not_lt.mpr h
    have habs : |nu2 - nu1| = nu2 - nu1 := abs_of_nonneg (by linarith)
    have hq := quadLoop_const ops a c ha hc nu1 nu2 h s dsem cph co efuel j k
    unfold integrateEmission
    simp only [if_neg hsw, emission_override ops a _ ha, habs]
    exact hq
  · have habs : |nu2 - nu1| = nu1 - nu2 := by
      rw [abs_of_neg (by linarith : nu2 - nu1 < 0)]; ring
    have hq := quadLoop_const ops a c ha hc nu2 nu1 (le_of_lt h) s dsem cph co
      efuel j k
    unfold integrateEmission
    simp only [if_pos h, emission_override ops a _ ha, habs]
    exact hq

theorem integrateEmission_symm (ops : MathOps R) (a : Generic R)
    (efuel lfuel ofuel : ℕ) (s : DState) (nu1 nu2 dsem : R)
    (cph co : List R) :
    integrateEmission ops a efuel lfuel ofuel s nu1 nu2 dsem cph co =
      integrateEmission ops a efuel lfuel ofuel s nu2 nu1 dsem cph co := by
  unfold integrateEmission
  rcases lt_trichotomy nu1 nu2 with h | h | h
  · rw [if_neg (not_lt.mpr h.le), if_neg (not_lt.mpr h.le), if_pos h, if_pos h]
  · subst h; rfl
  · rw [if_pos h, if_pos h, if_neg (not_lt.mpr h.le), if_neg (not_lt.mpr h.le)]

/-! ## Claim C4: concrete instances and theorems -/

/-- Concrete rational instantiation of the abstract double operations, used
by the closed counterexample and witness instances below (none of the
properties tested there depends on the transcendental values). -/
def opsQ : MathOps ℚ := ⟨id, id, -1000, id, 999⟩

/-- An object whose scalar emission coefficient is the constant `1`. -/
def constOneObj : Generic ℚ :=
  ⟨none, 0, 0, false, false, some fun _ _ _ _ => 1, none, none, none, none⟩

/-- C4 (counterexample): with constant emission coefficient `c = 1` and
bounds `nu1 = 2`, `nu2 = 1`, the band quadrature integrator returns `1`
(the integral from the smaller to the larger bound), which is not within a
1% relative tolerance of `c * (nu2 - nu1) = -1` as the claim states. -/
theorem claim4_counterexample :
    integrateEmission opsQ constOneObj 1 2 1 DState.init 2 1 0 [] [] =
      some (1, DState.init) ∧
    ¬ (|(1 : ℚ) - 1 * (1 - 2)| ≤ (1/100) * |1 * (1 - 2)|) := by
  constructor
  · have h := integrateEmission_const opsQ constOneObj 1 rfl (by norm_num)
      DState.init 2 1 0 [] [] 1 0 0
    norm_num at h
    exact h
  · norm_num

/-- C4 (amended): for the band quadrature integrator with a constant
emission coefficient `c ≥ 0`, the returned value is exactly
`c * |nu2 - nu1|` (hence within the claimed 1% tolerance of the band
integral with the smaller bound as lower limit) for every pair of bounds,
and the returned value is identical when the two bounds are swapped.  (For
`nu1 > nu2` the integrator cannot return `c * (nu2 - nu1) < 0` as literally
claimed, and for `c < 0` its refinement loop never terminates.) -/
theorem claim4_band_integral_constant (ops : MathOps R)
    (gg : Option (MetricM R)) (rm dm : R) (fl nr : Bool) (c : R) (hc : 0 ≤ c)
    (s : DState) (nu1 nu2 dsem : R) (cph co : List R) (efuel j k : ℕ) :
    integrateEmission ops
        ⟨gg, rm, dm, fl, nr, some fun _ _ _ _ => c, none, none, none, none⟩
        efuel (j + 2) (k + 1) s nu1 nu2 dsem cph co =
      some (c * |nu2 - nu1|, s) ∧
    integrateEmission ops
        ⟨gg, rm, dm, fl, nr, some fun _ _ _ _ => c, none, none, none, none⟩
        efuel (j + 2) (k + 1) s nu1 nu2 dsem cph co =
      integrateEmission ops
        ⟨gg, rm, dm, fl, nr, some fun _ _ _ _ => c, none, none, none, none⟩
        efuel (j + 2) (k + 1) s nu2 nu1 dsem cph co :=
  ⟨integrateEmission_const ops _ c rfl hc s nu1 nu2 dsem cph co efuel j k,
   integrateEmission_symm ops _ efuel (j + 2) (k + 1) s nu1 nu2 dsem cph co⟩

/-- C4 (witness): the amended claim at `c = 1`, `nu1 = 2`, `nu2 = 1`. -/
theorem claim4_witness :
    integrateEmission opsQ constOneObj 1 2 1 DState.init 2 1 0 [] [] =
      some (1, DState.init) ∧
    integrateEmission opsQ constOneObj 1 2 1 DState.init 2 1 0 [] [] =
      integrateEmission opsQ constOneObj 1 2 1 DState.init 1 2 0 [] [] := by
  have h := claim4_band_integral_constant (R := ℚ) opsQ none 0 0 false false 1
    (by norm_num) DState.init 2 1 0 [] [] 1 0 0
  norm_num at h
  exact h

/-! ## State evolution: the capability bitmask only grows -/

theorem DState.le_rfl (s : DState) : s.le s := ⟨fun h => h, fun h => h, fun h => h⟩

theorem DState.le_trans {s t u : DState} (h1 : s.le t) (h2 : t.le u) :
    s.le u :=
  ⟨fun h => h2.1 (h1.1 h), fun h => h2.2.1 (h1.2.1 h),
   fun h => h2.2.2 (h1.2.2 h)⟩

/-- State-evolution invariant of one dispatcher call on object `a`: the
bitmask only grows, and a bit is only ever set by the generic fallback body
of the corresponding primitive (an overridden primitive leaves its bit
alone). -/
def StepOk (a : Generic R) (s t : DState) : Prop :=
  s.le t ∧ (a.emV.isSome = true → t.emvec = s.emvec) ∧
    (a.radQ.isSome = true → t.unpol = s.unpol) ∧
    (a.radQpol.isSome = true → t.polar = s.polar)

theorem StepOk.refl (a : Generic R) (s : DState) : StepOk a s s :=
  ⟨DState.le_rfl s, fun _ => rfl, fun _ => rfl, fun _ => rfl⟩

theorem StepOk.trans {a : Generic R} {s t u : DState} (h1 : StepOk a s t)
    (h2 : StepOk a t u) : StepOk a s u :=
  ⟨DState.le_trans h1.1 h2.1,
   fun h => (h2.2.1 h).trans (h1.2.1 h),
   fun h => (h2.2.2.1 h).trans (h1.2.2.1 h),
   fun h => (h2.2.2.2 h).trans (h1.2.2.2 h)⟩

theorem StepOk.setUnpol {a : Generic R} (hq : a.radQ = none) (s : DState) :
    StepOk a s { s with unpol := true } :=
  ⟨⟨fun h => h, fun _ => rfl, fun h => h⟩, fun _ => rfl,
   fun h => by simp [hq] at h, fun _ => rfl⟩

theorem StepOk.setPolar {a : Generic R} (hqp : a.radQpol = none) (s : DState) :
    StepOk a s { s with polar := true } :=
  ⟨⟨fun _ => rfl, fun h => h, fun h => h⟩, fun _ => rfl, fun _ => rfl,
   fun h => by simp [hqp] at h⟩

theorem StepOk.setEmvec {a : Generic R} (hv : a.emV = none) (s : DState) :
    StepOk a s { s with emvec := true } :=
  ⟨⟨fun h => h, fun h => h, fun _ => rfl⟩, fun h => by simp [hv] at h,
   fun _ => rfl, fun _ => rfl⟩

/-- Every dispatcher call only grows the capability bitmask, and a bit is
set only by the generic fallback body of its own primitive.  Proved by one
induction on the fuel for all seven mutually recursive functions. -/
theorem dispatch_stepOk (ops : MathOps R) (a : Generic R) : ∀ fuel : ℕ,
    (∀ s nuem dsem cph co out,
      transmission ops a fuel s nuem dsem cph co = some out →
        StepOk a s out.2) ∧
    (∀ s nuem dsem cph co out,
      emission ops a fuel s nuem dsem cph co = some out → StepOk a s out.2) ∧
    (∀ s l dsem cph co out,
      emissionVec ops a fuel s l dsem cph co = some out → StepOk a s out.2) ∧
    (∀ s l dsem cph co out,
      radiativeQ ops a fuel s l dsem cph co = some out → StepOk a s out.2) ∧
    (∀ s l dsem cph co out,
      radiativeQPol ops a fuel s l dsem cph co = some out →
        StepOk a s out.2) ∧
    (∀ s l dsem cph co out,
      emissionList ops a fuel s l dsem cph co = some out → StepOk a s out.2) ∧
    (∀ s l dsem cph co out,
      transmissionList ops a fuel s l dsem cph co = some out →
        StepOk a s out.2) := by
  intro fuel
  induction fuel with
  | zero =>
    refine ⟨?_, ?_, ?_, ?_, ?_, ?_, ?_⟩
    · intro s nuem dsem cph co out h
      rw [transmission.eq_def] at h
      cases hov : a.trans with
      | some t =>
        rw [hov] at h
        simp only [Option.elim] at h
        cases h
        exact StepOk.refl a s
      | none => rw [hov] at h; simp at h
    · intro s nuem dsem cph co out h
      rw [emission.eq_def] at h
      cases hov : a.emS with
      | some e =>
        rw [hov] at h
        simp only [Option.elim] at h
        cases h
        exact StepOk.refl a s
      | none => rw [hov] at h; simp at h
    · intro s l dsem cph co out h
      rw [emissionVec.eq_def] at h
      cases hov : a.emV with
      | some e =>
        rw [hov] at h
        simp only [Option.elim] at h
        cases h
        exact StepOk.refl a s
      | none => rw [hov] at h; simp at h
    · intro s l dsem cph co out h
      rw [radiativeQ.eq_def] at h
      cases hov : a.radQ with
      | some q =>
        rw [hov] at h
        simp only [Option.elim] at h
        cases h
        exact StepOk.refl a s
      | none => rw [hov] at h; simp at h
    · intro s l dsem cph co out h
      rw [radiativeQPol.eq_def] at h
      cases hov : a.radQpol with
      | some q =>
        rw [hov] at h
        simp only [Option.elim] at h
        cases h
        exact StepOk.refl a s
      | none => rw [hov] at h; simp at h
    · intro s l dsem cph co out h
      cases l with
      | nil => rw [emissionList] at h; cases h; exact StepOk.refl a s
      | cons nu rest => rw [emissionList] at h; cases h
    · intro s l dsem cph co out h
      cases l with
      | nil => rw [transmissionList] at h; cases h; exact StepOk.refl a s
      | cons nu rest => rw [transmissionList] at h; cases h
  | succ n ih =>
    obtain ⟨ihT, ihE, ihV, ihQ, ihP, ihEL, ihTL⟩ := ih
    refine ⟨?_, ?_, ?_, ?_, ?_, ?_, ?_⟩
    · -- transmission
      intro s nuem dsem cph co out h
      rw [transmission.eq_def] at h
      cases hov : a.trans with
      | some t =>
        rw [hov] at h
        simp only [Option.elim] at h
        cases h
        exact StepOk.refl a s
      | none =>
        rw [hov] at h
        simp only [Option.elim] at h
        by_cases hcond : s.unpol = false ∨ s.polar = false
        · rw [if_pos hcond] at h
          cases hr : radiativeQ ops a n s [nuem] dsem cph co with
          | none => rw [hr] at h; cases h
          | some r =>
            obtain ⟨⟨Inu, Taunu⟩, s'⟩ := r
            rw [hr] at h
            cases h
            exact ihQ s [nuem] dsem cph co _ hr
        · rw [if_neg hcond] at h
          cases h
          exact StepOk.refl a s
    · -- emission
      intro s nuem dsem cph co out h
      rw [emission.eq_def] at h
      cases hov : a.emS with
      | some e =>
        rw [hov] at h
        simp only [Option.elim] at h
        cases h
        exact StepOk.refl a s
      | none =>
        rw [hov] at h
        simp only [Option.elim] at h
        by_cases hc1 : s.emvec = false
        · rw [if_pos hc1] at h
          cases hr : emissionVec ops a n s [nuem] dsem cph co with
          | none => rw [hr] at h; cases h
          | some r =>
            obtain ⟨Inu, s'⟩ := r
            rw [hr] at h
            cases h
            exact ihV s [nuem] dsem cph co _ hr
        · rw [if_neg hc1] at h
          by_cases hc2 : s.unpol = false ∨ s.polar = false
          · rw [if_pos hc2] at h
            cases hr : radiativeQ ops a n s [nuem] dsem cph co with
            | none => rw [hr] at h; cases h
            | some r =>
              obtain ⟨⟨Inu, Taunu⟩, s'⟩ := r
              rw [hr] at h
              cases h
              exact ihQ s [nuem] dsem cph co _ hr
          · rw [if_neg hc2] at h
            cases h
            exact StepOk.refl a s
    · -- emissionVec
      intro s l dsem cph co out h
      rw [emissionVec.eq_def] at h
      cases hov : a.emV with
      | some e =>
        rw [hov] at h
        simp only [Option.elim] at h
        cases h
        exact StepOk.refl a s
      | none =>
        rw [hov] at h
        simp only [Option.elim] at h
        have hstep := StepOk.setEmvec (a := a) hov s
        by_cases hc1 : ({ s with emvec := true } : DState).unpol = false
        · rw [if_pos hc1] at h
          cases hr : radiativeQ ops a n { s with emvec := true } l dsem cph co with
          | none => rw [hr] at h; cases h
          | some r =>
            obtain ⟨⟨Inu, Taunu⟩, s'⟩ := r
            rw [hr] at h
            cases h
            exact hstep.trans (ihQ _ l dsem cph co _ hr)
        · rw [if_neg hc1] at h
          by_cases hc2 : ({ s with emvec := true } : DState).polar = false
          · rw [if_pos hc2] at h
            cases hr : radiativeQPol ops a n { s with emvec := true } l dsem cph co with
            | none => rw [hr] at h; cases h
            | some r =>
              obtain ⟨po, s'⟩ := r
              rw [hr] at h
              cases h
              exact hstep.trans (ihP _ l dsem cph co _ hr)
          · rw [if_neg hc2] at h
            exact hstep.trans (ihEL _ l dsem cph co _ h)
    · -- radiativeQ
      intro s l dsem cph co out h
      rw [radiativeQ.eq_def] at h
      cases hov : a.radQ with
      | some q =>
        rw [hov] at h
        simp only [Option.elim] at h
        cases h
        exact StepOk.refl a s
      | none =>
        rw [hov] at h
        simp only [Option.elim] at h
        have hstep := StepOk.setUnpol (a := a) hov s
        by_cases hc1 : ({ s with unpol := true } : DState).polar = false
        · rw [if_pos hc1] at h
          cases hr : radiativeQPol ops a n { s with unpol := true } l dsem cph co with
          | none => rw [hr] at h; cases h
          | some r =>
            obtain ⟨po, s2⟩ := r
            rw [hr] at h
            dsimp only at h
            have hstep2 := hstep.trans (ihP _ l dsem cph co _ hr)
            by_cases hc2 : s2.polar = false
            · rw [if_pos hc2] at h
              cases h
              exact hstep2
            · rw [if_neg hc2] at h
              cases hr2 : transmissionList ops a n s2 l dsem cph co with
              | none => rw [hr2] at h; cases h
              | some r2 =>
                obtain ⟨Taunu, s3⟩ := r2
                rw [hr2] at h
                dsimp only at h
                cases h
                exact hstep2.trans (ihTL _ l dsem cph co _ hr2)
        · rw [if_neg hc1] at h
          cases hr : emissionVec ops a n { s with unpol := true } l dsem cph co with
          | none => rw [hr] at h; cases h
          | some r =>
            obtain ⟨Inu, s2⟩ := r
            rw [hr] at h
            dsimp only at h
            have hstep2 := hstep.trans (ihV _ l dsem cph co _ hr)
            cases hr2 : transmissionList ops a n s2 l dsem cph co with
            | none => rw [hr2] at h; cases h
            | some r2 =>
              obtain ⟨Taunu, s3⟩ := r2
              rw [hr2] at h
              cases h
              exact hstep2.trans (ihTL _ l dsem cph co _ hr2)
    · -- radiativeQPol
      intro s l dsem cph co out h
      rw [radiativeQPol.eq_def] at h
      cases hov : a.radQpol with
      | some q =>
        rw [hov] at h
        simp only [Option.elim] at h
        cases h
        exact StepOk.refl a s
      | none =>
        rw [hov] at h
        simp only [Option.elim] at h
        have hstep := StepOk.setPolar (a := a) hov s
        cases hr : radiativeQ ops a n { s with polar := true } l dsem cph co with
        | none => rw [hr] at h; cases h
        | some r =>
          obtain ⟨⟨Inu, Taunu⟩, s2⟩ := r
          rw [hr] at h
          cases h
          exact hstep.trans (ihQ _ l dsem cph co _ hr)
    · -- emissionList
      intro s l dsem cph co out h
      cases l with
      | nil => rw [emissionList] at h; cases h; exact StepOk.refl a s
      | cons nu rest =>
        rw [emissionList] at h
        cases hr : emission ops a n s nu dsem cph co with
        | none => rw [hr] at h; cases h
        | some r =>
          obtain ⟨v, s2⟩ := r
          rw [hr] at h
          dsimp only at h
          have h1 := ihE s nu dsem cph co _ hr
          cases hr2 : emissionList ops a n s2 rest dsem cph co with
          | none => rw [hr2] at h; cases h
          | some r2 =>
            obtain ⟨vs, s3⟩ := r2
            rw [hr2] at h
            cases h
            exact h1.trans (ihEL s2 rest dsem cph co (vs, s3) hr2)
    · -- transmissionList
      intro s l dsem cph co out h
      cases l with
      | nil => rw [transmissionList] at h; cases h; exact StepOk.refl a s
      | cons nu rest =>
        rw [transmissionList] at h
        cases hr : transmission ops a n s nu dsem cph co with
        | none => rw [hr] at h; cases h
        | some r =>
          obtain ⟨v, s2⟩ := r
          rw [hr] at h
          dsimp only at h
          have h1 := ihT s nu dsem cph co _ hr
          cases hr2 : transmissionList ops a n s2 rest dsem cph co with
          | none => rw [hr2] at h; cases h
          | some r2 =>
            obtain ⟨vs, s3⟩ := r2
            rw [hr2] at h
            cases h
            exact h1.trans (ihTL s2 rest dsem cph co (vs, s3) hr2)

/-- C8: the capability bitmask `__defaultfeatures` evolves monotonically:
every radiative-transfer primitive invocation either leaves it unchanged or
sets additional bits (set via bitwise or by the generic fallback bodies),
and no invocation ever clears a bit. -/
theorem claim8_bitmask_monotone (ops : MathOps R) (a : Generic R) (fuel : ℕ) :
    (∀ s nuem dsem cph co v s',
      transmission ops a fuel s nuem dsem cph co = some (v, s') → s.le s') ∧
    (∀ s nuem dsem cph co v s',
      emission ops a fuel s nuem dsem cph co = some (v, s') → s.le s') ∧
    (∀ s l dsem cph co v s',
      emissionVec ops a fuel s l dsem cph co = some (v, s') → s.le s') ∧
    (∀ s l dsem cph co v s',
      radiativeQ ops a fuel s l dsem cph co = some (v, s') → s.le s') ∧
    (∀ s l dsem cph co v s',
      radiativeQPol ops a fuel s l dsem cph co = some (v, s') → s.le s') := by
  obtain ⟨hT, hE, hV, hQ, hP, _, _⟩ := dispatch_stepOk ops a fuel
  exact ⟨fun s n d c o v s' h => (hT s n d c o (v, s') h).1,
         fun s n d c o v s' h => (hE s n d c o (v, s') h).1,
         fun s l d c o v s' h => (hV s l d c o (v, s') h).1,
         fun s l d c o v s' h => (hQ s l d c o (v, s') h).1,
         fun s l d c o v s' h => (hP s l d c o (v, s') h).1⟩

/-- An object with no overridden primitive, optically thin, over `ℚ`;
used by the witness instances. -/
def defaultObjQ : Generic ℚ := ⟨none, 0, 0, true, false, none, none, none, none, none⟩

/-- C8 (witness): on a fresh optically-thin default object over `ℚ`, each of
the five primitives grows the bitmask from the empty state to the full one. -/
theorem claim8_witness :
    DState.init.le ⟨true, true, true⟩ ∧ DState.init.le ⟨true, true, true⟩ ∧
    DState.init.le ⟨true, true, true⟩ ∧ DState.init.le ⟨true, true, true⟩ ∧
    DState.init.le ⟨true, true, true⟩ :=
  ⟨(claim8_bitmask_monotone opsQ defaultObjQ 10).1 DState.init 1 2 [] [] 1
     ⟨true, true, true⟩ rfl,
   (claim8_bitmask_monotone opsQ defaultObjQ 10).2.1 DState.init 1 2 [] [] 2
     ⟨true, true, true⟩ rfl,
   (claim8_bitmask_monotone opsQ defaultObjQ 10).2.2.1 DState.init [1] 2 [] []
     [2] ⟨true, true, true⟩ rfl,
   (claim8_bitmask_monotone opsQ defaultObjQ 10).2.2.2.1 DState.init [1] 2 []
     [] ([2], [1]) ⟨true, true, true⟩ rfl,
   (claim8_bitmask_monotone opsQ defaultObjQ 10).2.2.2.2 DState.init [1] 2 []
     [] ⟨[2], [0], [0], [0],
         [if ((1:ℚ) < 1/10) then (-1000 : ℚ) else -(opsQ.log 1)],
         [0], [0], [0], [0], [0], [0]⟩ ⟨true, true, true⟩ rfl⟩

/-! ### Objects overriding only the vector emission primitive -/

theorem radiativeQ_emV_polar (ops : MathOps R) (a : Generic R)
    (f : List R → R → List R → List R → List R) (hv : a.emV = some f)
    (hq : a.radQ = none) (ht : a.trans = none)
    (l : List R) (dsem : R) (cph co : List R)
    (fuel : ℕ) (hf : l.length + 2 ≤ fuel) (su se : Bool) :
    radiativeQ ops a fuel ⟨true, su, se⟩ l dsem cph co =
      some ((f l dsem cph co,
             List.replicate l.length (if a.flag_radtransf then 1 else 0)),
            ⟨true, true, se⟩) := by
  cases fuel with
  | zero => simp at hf
  | succ n =>
    have h1 := emissionVec_override ops a f hv n ⟨true, true, se⟩ l dsem cph co
    have h2 := transmissionList_flag ops a ht dsem cph co l n (by omega)
      ⟨true, true, se⟩ rfl rfl
    rw [radiativeQ.eq_def, hq]
    simp [h1, h2]

theorem radiativeQPol_emV_any (ops : MathOps R) (a : Generic R)
    (f : List R → R → List R → List R → List R) (hv : a.emV = some f)
    (hq : a.radQ = none) (hqp : a.radQpol = none) (ht : a.trans = none)
    (l : List R) (dsem : R) (cph co : List R)
    (fuel : ℕ) (hf : l.length + 3 ≤ fuel) (sp su se : Bool) :
    radiativeQPol ops a fuel ⟨sp, su, se⟩ l dsem cph co =
      some (⟨f l dsem cph co,
             List.replicate l.length 0, List.replicate l.length 0,
             List.replicate l.length 0,
             List.replicate l.length
               (if (if a.flag_radtransf then (1 : R) else 0) < 1/10 then
                  ops.negInf
                else -(ops.log (if a.flag_radtransf then 1 else 0))),
             List.replicate l.length 0, List.replicate l.length 0,
             List.replicate l.length 0, List.replicate l.length 0,
             List.replicate l.length 0, List.replicate l.length 0⟩,
            ⟨true, true, se⟩) := by
  cases fuel with
  | zero => simp at hf
  | succ n =>
    have hin := radiativeQ_emV_polar ops a f hv hq ht l dsem cph co n
      (by omega) su se
    rw [radiativeQPol.eq_def, hqp]
    simp [hin]

theorem radiativeQ_emV (ops : MathOps R) (a : Generic R)
    (f : List R → R → List R → List R → List R) (hv : a.emV = some f)
    (hq : a.radQ = none) (hqp : a.radQpol = none) (ht : a.trans = none)
    (l : List R) (dsem : R) (cph co : List R)
    (fuel : ℕ) (hf : l.length + 5 ≤ fuel) (s : DState) :
    radiativeQ ops a fuel s l dsem cph co =
      some ((f l dsem cph co,
             List.replicate l.length (if a.flag_radtransf then 1 else 0)),
            ⟨true, true, s.emvec⟩) := by
  obtain ⟨sp, su, se⟩ := s
  cases sp with
  | true =>
    exact radiativeQ_emV_polar ops a f hv hq ht l dsem cph co fuel (by omega)
      su se
  | false =>
    cases fuel with
    | zero => simp at hf
    | succ n =>
      have hqpol := radiativeQPol_emV_any ops a f hv hq hqp ht l dsem cph co n
        (by omega) false true se
      have h2 := transmissionList_flag ops a ht dsem cph co l n
        (by omega) ⟨true, true, se⟩ rfl rfl
      rw [radiativeQ.eq_def, hq]
      simp [hqpol, h2]

theorem transmission_emV (ops : MathOps R) (a : Generic R)
    (f : List R → R → List R → List R → List R) (hv : a.emV = some f)
    (hq : a.radQ = none) (hqp : a.radQpol = none) (ht : a.trans = none)
    (nuem dsem : R) (cph co : List R)
    (fuel : ℕ) (hf : 8 ≤ fuel) (s : DState) :
    (transmission ops a fuel s nuem dsem cph co).map Prod.fst =
      some (if a.flag_radtransf then 1 else 0) := by
  obtain ⟨sp, su, se⟩ := s
  cases fuel with
  | zero => simp at hf
  | succ n =>
    by_cases hb : su = true ∧ sp = true
    · obtain ⟨h1, h2⟩ := hb
      subst h1; subst h2
      rw [transmission_flag ops a ht n ⟨true, true, se⟩ rfl rfl nuem dsem cph co]
      simp
    · have h1 := radiativeQ_emV ops a f hv hq hqp ht [nuem] dsem cph co n
        (by simp; omega) ⟨sp, su, se⟩
      have hcond : su = false ∨ sp = false := by
        cases su <;> cases sp <;> simp_all
      rw [transmission.eq_def, ht]
      simp [hcond, h1]

theorem emission_emV (ops : MathOps R) (a : Generic R)
    (f : List R → R → List R → List R → List R) (hs : a.emS = none)
    (hv : a.emV = some f)
    (nuem dsem : R) (cph co : List R)
    (fuel : ℕ) (hf : 2 ≤ fuel) (s : DState) (he : s.emvec = false) :
    emission ops a fuel s nuem dsem cph co =
      some ((f [nuem] dsem cph co).getD 0 0, s) := by
  cases fuel with
  | zero => simp at hf
  | succ n =>
    have h1 := emissionVec_override ops a f hv n s [nuem] dsem cph co
    rw [emission.eq_def, hs]
    simp [he, h1]

/-! ### Objects overriding only the unpolarized radiativeQ primitive -/

theorem radiativeQPol_radQ (ops : MathOps R) (a : Generic R)
    (q : List R → R → List R → List R → List R × List R) (hq : a.radQ = some q)
    (hqp : a.radQpol = none) (l : List R) (dsem : R) (cph co : List R)
    (fuel : ℕ) (hf : 1 ≤ fuel) (s : DState) :
    radiativeQPol ops a fuel s l dsem cph co =
      some (⟨(q l dsem cph co).1,
             List.replicate l.length 0, List.replicate l.length 0,
             List.replicate l.length 0,
             (q l dsem cph co).2.map fun t =>
               if t < 1/10 then ops.negInf else -(ops.log t),
             List.replicate l.length 0, List.replicate l.length 0,
             List.replicate l.length 0, List.replicate l.length 0,
             List.replicate l.length 0, List.replicate l.length 0⟩,
            { s with polar := true }) := by
  cases fuel with
  | zero => simp at hf
  | succ n =>
    have h1 := radiativeQ_override ops a q hq n { s with polar := true } l
      dsem cph co
    rw [radiativeQPol.eq_def, hqp]
    simp [h1]

theorem transmission_radQ (ops : MathOps R) (a : Generic R)
    (q : List R → R → List R → List R → List R × List R) (hq : a.radQ = some q)
    (ht : a.trans = none) (nuem dsem : R) (cph co : List R)
    (fuel : ℕ) (hf : 1 ≤ fuel) (s : DState) (hu : s.unpol = false) :
    transmission ops a fuel s nuem dsem cph co =
      some ((q [nuem] dsem cph co).2.getD 0 0, s) := by
  cases fuel with
  | zero => simp at hf
  | succ n =>
    have h1 := radiativeQ_override ops a q hq n s [nuem] dsem cph co
    rw [transmission.eq_def, ht]
    simp [hu, h1]

theorem emissionVec_radQ (ops : MathOps R) (a : Generic R)
    (q : List R → R → List R → List R → List R × List R) (hq : a.radQ = some q)
    (hv : a.emV = none) (l : List R) (dsem : R) (cph co : List R)
    (fuel : ℕ) (hf : 1 ≤ fuel) (s : DState) (hu : s.unpol = false) :
    emissionVec ops a fuel s l dsem cph co =
      some ((q l dsem cph co).1, { s with emvec := true }) := by
  obtain ⟨sp, su, se⟩ := s
  have hsu : su = false := by simpa using hu
  subst hsu
  cases fuel with
  | zero => simp at hf
  | succ n =>
    have h1 := radiativeQ_override ops a q hq n ⟨sp, false, true⟩ l dsem cph co
    rw [emissionVec.eq_def, hv]
    simp [h1]

theorem emission_radQ (ops : MathOps R) (a : Generic R)
    (q : List R → R → List R → List R → List R × List R) (hq : a.radQ = some q)
    (hs : a.emS = none) (hv : a.emV = none)
    (nuem dsem : R) (cph co : List R)
    (fuel : ℕ) (hf : 2 ≤ fuel) (s : DState) (hu : s.unpol = false) :
    (emission ops a fuel s nuem dsem cph co).map Prod.fst =
      some ((q [nuem] dsem cph co).1.getD 0 0) := by
  obtain ⟨sp, su, se⟩ := s
  cases fuel with
  | zero => simp at hf
  | succ n =>
    cases se with
    | false =>
      have h1 := emissionVec_radQ ops a q hq hv [nuem] dsem cph co n
        (by omega) ⟨sp, su, false⟩ hu
      rw [emission.eq_def, hs]
      simp [h1]
    | true =>
      have h1 := radiativeQ_override ops a q hq n ⟨sp, su, true⟩ [nuem] dsem
        cph co
      have hsu : su = false := by simpa using hu
      subst hsu
      rw [emission.eq_def, hs]
      simp [h1]

/-! ### Objects overriding only the polarized radiativeQ primitive -/

theorem radiativeQ_radQpol (ops : MathOps R) (a : Generic R)
    (p : List R → R → List R → List R → PolOut R) (hqp : a.radQpol = some p)
    (hq : a.radQ = none) (l : List R) (dsem : R) (cph co : List R)
    (fuel : ℕ) (hf : 1 ≤ fuel) (s : DState) (hp : s.polar = false) :
    radiativeQ ops a fuel s l dsem cph co =
      some (((p l dsem cph co).Inu,
             (p l dsem cph co).alphaInu.map fun x => ops.exp (-x)),
            { s with unpol := true }) := by
  obtain ⟨sp, su, se⟩ := s
  have hsp : sp = false := by simpa using hp
  subst hsp
  cases fuel with
  | zero => simp at hf
  | succ n =>
    have h1 := radiativeQPol_override ops a p hqp n ⟨false, true, se⟩ l
      dsem cph co
    rw [radiativeQ.eq_def, hq]
    simp [h1]

theorem transmission_radQpol (ops : MathOps R) (a : Generic R)
    (p : List R → R → List R → List R → PolOut R) (hqp : a.radQpol = some p)
    (hq : a.radQ = none) (ht : a.trans = none) (nuem dsem : R)
    (cph co : List R) (fuel : ℕ) (hf : 2 ≤ fuel) (s : DState)
    (hp : s.polar = false) :
    transmission ops a fuel s nuem dsem cph co =
      some (((p [nuem] dsem cph co).alphaInu.map fun x =>
             ops.exp (-x)).getD 0 0, { s with unpol := true }) := by
  cases fuel with
  | zero => simp at hf
  | succ n =>
    have h1 := radiativeQ_radQpol ops a p hqp hq [nuem] dsem cph co n
      (by omega) s hp
    rw [transmission.eq_def, ht]
    simp [hp, h1]

theorem emissionVec_radQpol (ops : MathOps R) (a : Generic R)
    (p : List R → R → List R → List R → PolOut R) (hqp : a.radQpol = some p)
    (hq : a.radQ = none) (hv : a.emV = none) (l : List R) (dsem : R)
    (cph co : List R) (fuel : ℕ) (hf : 2 ≤ fuel) (s : DState)
    (hp : s.polar = false) :
    (emissionVec ops a fuel s l dsem cph co).map Prod.fst =
      some ((p l dsem cph co).Inu) := by
  obtain ⟨sp, su, se⟩ := s
  have hsp : sp = false := by simpa using hp
  subst hsp
  cases fuel with
  | zero => simp at hf
  | succ n =>
    cases su with
    | false =>
      have h1 := radiativeQ_radQpol ops a p hqp hq l dsem cph co n (by omega)
        ⟨false, false, true⟩ rfl
      rw [emissionVec.eq_def, hv]
      simp [h1]
    | true =>
      have h1 := radiativeQPol_override ops a p hqp n ⟨false, true, true⟩ l
        dsem cph co
      rw [emissionVec.eq_def, hv]
      simp [h1]

theorem emission_radQpol (ops : MathOps R) (a : Generic R)
    (p : List R → R → List R → List R → PolOut R) (hqp : a.radQpol = some p)
    (hq : a.radQ = none) (hs : a.emS = none) (hv : a.emV = none)
    (nuem dsem : R) (cph co : List R) (fuel : ℕ) (hf : 3 ≤ fuel) (s : DState)
    (hp : s.polar = false) :
    (emission ops a fuel s nuem dsem cph co).map Prod.fst =
      some ((p [nuem] dsem cph co).Inu.getD 0 0) := by
  obtain ⟨sp, su, se⟩ := s
  have hsp : sp = false := by simpa using hp
  subst hsp
  cases fuel with
  | zero => simp at hf
  | succ n =>
    cases se with
    | false =>
      have h1 := emissionVec_radQpol ops a p hqp hq hv [nuem] dsem cph co n
        (by omega) ⟨false, su, false⟩ rfl
      rw [emission.eq_def, hs]
      cases hr : emissionVec ops a n ⟨false, su, false⟩ [nuem] dsem cph co with
      | none => rw [hr] at h1; simp at h1
      | some r =>
        rw [hr] at h1
        simp at h1
        simp [hr, h1]
    | true =>
      have h1 := radiativeQ_radQpol ops a p hqp hq [nuem] dsem cph co n
        (by omega) ⟨false, su, true⟩ rfl
      rw [emission.eq_def, hs]
      simp [h1]

/-! ### Remaining value lemmas for the scalar-emission-only configuration -/

theorem transmission_emS (ops : MathOps R) (a : Generic R)
    (e : R → R → List R → List R → R) (ha : a.emS = some e)
    (hv : a.emV = none) (hq : a.radQ = none) (hqp : a.radQpol = none)
    (ht : a.trans = none) (nuem dsem : R) (cph co : List R)
    (fuel : ℕ) (hf : 8 ≤ fuel) (s : DState) :
    (transmission ops a fuel s nuem dsem cph co).map Prod.fst =
      some (if a.flag_radtransf then 1 else 0) := by
  obtain ⟨sp, su, se⟩ := s
  cases fuel with
  | zero => simp at hf
  | succ n =>
    by_cases hb : su = true ∧ sp = true
    · obtain ⟨h1, h2⟩ := hb
      subst h1; subst h2
      rw [transmission_flag ops a ht n ⟨true, true, se⟩ rfl rfl nuem dsem cph co]
      simp
    · have h1 := radiativeQ_emS ops a e ha hv hq hqp ht [nuem] dsem cph co n
        (by simp; omega) ⟨sp, su, se⟩
      have hcond : su = false ∨ sp = false := by
        cases su <;> cases sp <;> simp_all
      rw [transmission.eq_def, ht]
      simp [hcond, h1]

theorem emissionVec_emS (ops : MathOps R) (a : Generic R)
    (e : R → R → List R → List R → R) (ha : a.emS = some e)
    (hv : a.emV = none) (hq : a.radQ = none) (hqp : a.radQpol = none)
    (ht : a.trans = none) (l : List R) (dsem : R) (cph co : List R)
    (fuel : ℕ) (hf : l.length + 8 ≤ fuel) (s : DState) :
    (emissionVec ops a fuel s l dsem cph co).map Prod.fst =
      some (l.map fun nu => e nu dsem cph co) := by
  obtain ⟨sp, su, se⟩ := s
  cases fuel with
  | zero => simp at hf
  | succ n =>
    cases su with
    | false =>
      have h1 := radiativeQ_emS ops a e ha hv hq hqp ht l dsem cph co n
        (by omega) ⟨sp, false, true⟩
      rw [emissionVec.eq_def, hv]
      simp [h1]
    | true =>
      cases sp with
      | false =>
        have h1 := radiativeQPol_emS ops a e ha hv hq hqp ht l dsem cph co n
          (by omega) ⟨false, true, true⟩
        rw [emissionVec.eq_def, hv]
        simp [h1]
      | true =>
        have h1 := emissionList_override ops a e ha dsem cph co l n
          (by omega) ⟨true, true, true⟩
        rw [emissionVec.eq_def, hv]
        simp [h1]

/-! ## Reachable bitmask states and capability idempotence -/

/-- Bitmask states reachable from a fresh object (`__defaultfeatures = 0`)
by any sequence of radiative-primitive invocations with any arguments. -/
inductive Reach (ops : MathOps R) (a : Generic R) : DState → Prop where
  | init : Reach ops a DState.init
  | stepTransmission (fuel : ℕ) (s : DState) (nuem dsem : R)
      (cph co : List R) (v : R) (s' : DState) : Reach ops a s →
      transmission ops a fuel s nuem dsem cph co = some (v, s') →
      Reach ops a s'
  | stepEmission (fuel : ℕ) (s : DState) (nuem dsem : R) (cph co : List R)
      (v : R) (s' : DState) : Reach ops a s →
      emission ops a fuel s nuem dsem cph co = some (v, s') → Reach ops a s'
  | stepEmissionVec (fuel : ℕ) (s : DState) (l : List R) (dsem : R)
      (cph co : List R) (v : List R) (s' : DState) : Reach ops a s →
      emissionVec ops a fuel s l dsem cph co = some (v, s') → Reach ops a s'
  | stepRadiativeQ (fuel : ℕ) (s : DState) (l : List R) (dsem : R)
      (cph co : List R) (v : List R × List R) (s' : DState) : Reach ops a s →
      radiativeQ ops a fuel s l dsem cph co = some (v, s') → Reach ops a s'
  | stepRadiativeQPol (fuel : ℕ) (s : DState) (l : List R) (dsem : R)
      (cph co : List R) (v : PolOut R) (s' : DState) : Reach ops a s →
      radiativeQPol ops a fuel s l dsem cph co = some (v, s') → Reach ops a s'

/-- If the vector-emission primitive is overridden, its capability bit is
never set on any reachable state (only the generic body sets it). -/
theorem reach_emvec_of_emV (ops : MathOps R) (a : Generic R)
    (hov : a.emV.isSome = true) {s : DState} (h : Reach ops a s) :
    s.emvec = false := by
  induction h with
  | init => rfl
  | stepTransmission fuel s0 nuem dsem cph co v s1 _ hcall ih =>
    exact (((dispatch_stepOk ops a fuel).1 s0 nuem dsem cph co (v, s1)
      hcall).2.1 hov).trans ih
  | stepEmission fuel s0 nuem dsem cph co v s1 _ hcall ih =>
    exact (((dispatch_stepOk ops a fuel).2.1 s0 nuem dsem cph co (v, s1)
      hcall).2.1 hov).trans ih
  | stepEmissionVec fuel s0 l dsem cph co v s1 _ hcall ih =>
    exact (((dispatch_stepOk ops a fuel).2.2.1 s0 l dsem cph co (v, s1)
      hcall).2.1 hov).trans ih
  | stepRadiativeQ fuel s0 l dsem cph co v s1 _ hcall ih =>
    exact (((dispatch_stepOk ops a fuel).2.2.2.1 s0 l dsem cph co (v, s1)
      hcall).2.1 hov).trans ih
  | stepRadiativeQPol fuel s0 l dsem cph co v s1 _ hcall ih =>
    exact (((dispatch_stepOk ops a fuel).2.2.2.2.1 s0 l dsem cph co (v, s1)
      hcall).2.1 hov).trans ih

/-- If the unpolarized radiativeQ primitive is overridden, its capability
bit is never set on any reachable state. -/
theorem reach_unpol_of_radQ (ops : MathOps R) (a : Generic R)
    (hov : a.radQ.isSome = true) {s : DState} (h : Reach ops a s) :
    s.unpol = false := by
  induction h with
  | init => rfl
  | stepTransmission fuel s0 nuem dsem cph co v s1 _ hcall ih =>
    exact (((dispatch_stepOk ops a fuel).1 s0 nuem dsem cph co (v, s1)
      hcall).2.2.1 hov).trans ih
  | stepEmission fuel s0 nuem dsem cph co v s1 _ hcall ih =>
    exact (((dispatch_stepOk ops a fuel).2.1 s0 nuem dsem cph co (v, s1)
      hcall).2.2.1 hov).trans ih
  | stepEmissionVec fuel s0 l dsem cph co v s1 _ hcall ih =>
    exact (((dispatch_stepOk ops a fuel).2.2.1 s0 l dsem cph co (v, s1)
      hcall).2.2.1 hov).trans ih
  | stepRadiativeQ fuel s0 l dsem cph co v s1 _ hcall ih =>
    exact (((dispatch_stepOk ops a fuel).2.2.2.1 s0 l dsem cph co (v, s1)
      hcall).2.2.1 hov).trans ih
  | stepRadiativeQPol fuel s0 l dsem cph co v s1 _ hcall ih =>
    exact (((dispatch_stepOk ops a fuel).2.2.2.2.1 s0 l dsem cph co (v, s1)
      hcall).2.2.1 hov).trans ih

/-- If the polarized radiativeQ primitive is overridden, its capability bit
is never set on any reachable state. -/
theorem reach_polar_of_radQpol (ops : MathOps R) (a : Generic R)
    (hov : a.radQpol.isSome = true) {s : DState} (h : Reach ops a s) :
    s.polar = false := by
  induction h with
  | init => rfl
  | stepTransmission fuel s0 nuem dsem cph co v s1 _ hcall ih =>
    exact (((dispatch_stepOk ops a fuel).1 s0 nuem dsem cph co (v, s1)
      hcall).2.2.2 hov).trans ih
  | stepEmission fuel s0 nuem dsem cph co v s1 _ hcall ih =>
    exact (((dispatch_stepOk ops a fuel).2.1 s0 nuem dsem cph co (v, s1)
      hcall).2.2.2 hov).trans ih
  | stepEmissionVec fuel s0 l dsem cph co v s1 _ hcall ih =>
    exact (((dispatch_stepOk ops a fuel).2.2.1 s0 l dsem cph co (v, s1)
      hcall).2.2.2 hov).trans ih
  | stepRadiativeQ fuel s0 l dsem cph co v s1 _ hcall ih =>
    exact (((dispatch_stepOk ops a fuel).2.2.2.1 s0 l dsem cph co (v, s1)
      hcall).2.2.2 hov).trans ih
  | stepRadiativeQPol fuel s0 l dsem cph co v s1 _ hcall ih =>
    exact (((dispatch_stepOk ops a fuel).2.2.2.2.1 s0 l dsem cph co (v, s1)
      hcall).2.2.2 hov).trans ih

/-- An object overriding exactly one radiative-transfer level. -/
def SingleLevel (a : Generic R) : Prop :=
  a.trans = none ∧
  (((∃ e, a.emS = some e) ∧ a.emV = none ∧ a.radQ = none ∧ a.radQpol = none) ∨
   (a.emS = none ∧ (∃ f, a.emV = some f) ∧ a.radQ = none ∧ a.radQpol = none) ∨
   (a.emS = none ∧ a.emV = none ∧ (∃ q, a.radQ = some q) ∧ a.radQpol = none) ∨
   (a.emS = none ∧ a.emV = none ∧ a.radQ = none ∧ (∃ p, a.radQpol = some p)))

/-- C9: for every object that overrides exactly one radiative-transfer
level, the numeric results of all five primitives depend only on the
arguments, not on the (reachable) capability-bitmask state or the fuel, so
repeated invocations with the same arguments yield identical results: the
only state mutated across calls is the capability bitmask, and it never
changes which numeric answer is produced. -/
theorem claim9_capability_idempotence (ops : MathOps R) (a : Generic R)
    (hS : SingleLevel a) (s s' : DState) (hs : Reach ops a s)
    (hs' : Reach ops a s') (k k' : ℕ) (nuem dsem : R) (l cph co : List R) :
    ((transmission ops a (k + 10) s nuem dsem cph co).map Prod.fst =
      (transmission ops a (k' + 10) s' nuem dsem cph co).map Prod.fst) ∧
    ((emission ops a (k + 10) s nuem dsem cph co).map Prod.fst =
      (emission ops a (k' + 10) s' nuem dsem cph co).map Prod.fst) ∧
    ((emissionVec ops a (l.length + (k + 10)) s l dsem cph co).map Prod.fst =
      (emissionVec ops a (l.length + (k' + 10)) s' l dsem cph co).map
        Prod.fst) ∧
    ((radiativeQ ops a (l.length + (k + 10)) s l dsem cph co).map Prod.fst =
      (radiativeQ ops a (l.length + (k' + 10)) s' l dsem cph co).map
        Prod.fst) ∧
    ((radiativeQPol ops a (l.length + (k + 10)) s l dsem cph co).map
        Prod.fst =
      (radiativeQPol ops a (l.length + (k' + 10)) s' l dsem cph co).map
        Prod.fst) := by
  obtain ⟨htr, hcase⟩ := hS
  rcases hcase with ⟨⟨e, he⟩, hv, hq, hqp⟩ | ⟨he0, ⟨f, hf⟩, hq, hqp⟩ |
    ⟨he0, hv, ⟨q, hqv⟩, hqp⟩ | ⟨he0, hv, hq, ⟨p, hpv⟩⟩
  · refine ⟨?_, ?_, ?_, ?_, ?_⟩
    · rw [transmission_emS ops a e he hv hq hqp htr nuem dsem cph co _
          (by omega) s,
        transmission_emS ops a e he hv hq hqp htr nuem dsem cph co _
          (by omega) s']
    · rw [emission_override ops a e he, emission_override ops a e he]
      rfl
    · rw [emissionVec_emS ops a e he hv hq hqp htr l dsem cph co _
          (by omega) s,
        emissionVec_emS ops a e he hv hq hqp htr l dsem cph co _
          (by omega) s']
    · rw [radiativeQ_emS ops a e he hv hq hqp htr l dsem cph co _
          (by omega) s,
        radiativeQ_emS ops a e he hv hq hqp htr l dsem cph co _
          (by omega) s']
    · rw [radiativeQPol_emS ops a e he hv hq hqp htr l dsem cph co _
          (by omega) s,
        radiativeQPol_emS ops a e he hv hq hqp htr l dsem cph co _
          (by omega) s']
  · have hes : s.emvec = false := reach_emvec_of_emV ops a (by simp [hf]) hs
    have hes' : s'.emvec = false := reach_emvec_of_emV ops a (by simp [hf]) hs'
    refine ⟨?_, ?_, ?_, ?_, ?_⟩
    · rw [transmission_emV ops a f hf hq hqp htr nuem dsem cph co _
          (by omega) s,
        transmission_emV ops a f hf hq hqp htr nuem dsem cph co _
          (by omega) s']
    · rw [emission_emV ops a f he0 hf nuem dsem cph co _ (by omega) s hes,
        emission_emV ops a f he0 hf nuem dsem cph co _ (by omega) s' hes']
      rfl
    · rw [emissionVec_override ops a f hf, emissionVec_override ops a f hf]
      rfl
    · rw [radiativeQ_emV ops a f hf hq hqp htr l dsem cph co _ (by omega) s,
        radiativeQ_emV ops a f hf hq hqp htr l dsem cph co _ (by omega) s']
      rfl
    · obtain ⟨sp, su, se⟩ := s
      obtain ⟨sp', su', se'⟩ := s'
      rw [radiativeQPol_emV_any ops a f hf hq hqp htr l dsem cph co _
          (by omega) sp su se,
        radiativeQPol_emV_any ops a f hf hq hqp htr l dsem cph co _
          (by omega) sp' su' se']
      rfl
  · have hus : s.unpol = false := reach_unpol_of_radQ ops a (by simp [hqv]) hs
    have hus' : s'.unpol = false :=
      reach_unpol_of_radQ ops a (by simp [hqv]) hs'
    refine ⟨?_, ?_, ?_, ?_, ?_⟩
    · rw [transmission_radQ ops a q hqv htr nuem dsem cph co _ (by omega)
          s hus,
        transmission_radQ ops a q hqv htr nuem dsem cph co _ (by omega)
          s' hus']
      rfl
    · rw [emission_radQ ops a q hqv he0 hv nuem dsem cph co _ (by omega)
          s hus,
        emission_radQ ops a q hqv he0 hv nuem dsem cph co _ (by omega)
          s' hus']
    · rw [emissionVec_radQ ops a q hqv hv l dsem cph co _ (by omega) s hus,
        emissionVec_radQ ops a q hqv hv l dsem cph co _ (by omega) s' hus']
      rfl
    · rw [radiativeQ_override ops a q hqv, radiativeQ_override ops a q hqv]
      rfl
    · rw [radiativeQPol_radQ ops a q hqv hqp l dsem cph co _ (by omega) s,
        radiativeQPol_radQ ops a q hqv hqp l dsem cph co _ (by omega) s']
      rfl
  · have hps : s.polar = false :=
      reach_polar_of_radQpol ops a (by simp [hpv]) hs
    have hps' : s'.polar = false :=
      reach_polar_of_radQpol ops a (by simp [hpv]) hs'
    refine ⟨?_, ?_, ?_, ?_, ?_⟩
    · rw [transmission_radQpol ops a p hpv hq htr nuem dsem cph co _
          (by omega) s hps,
        transmission_radQpol ops a p hpv hq htr nuem dsem cph co _
          (by omega) s' hps']
      rfl
    · rw [emission_radQpol ops a p hpv hq he0 hv nuem dsem cph co _
          (by omega) s hps,
        emission_radQpol ops a p hpv hq he0 hv nuem dsem cph co _
          (by omega) s' hps']
    · rw [emissionVec_radQpol ops a p hpv hq hv l dsem cph co _ (by omega)
          s hps,
        emissionVec_radQpol ops a p hpv hq hv l dsem cph co _ (by omega)
          s' hps']
    · rw [radiativeQ_radQpol ops a p hpv hq l dsem cph co _ (by omega) s hps,
        radiativeQ_radQpol ops a p hpv hq l dsem cph co _ (by omega) s' hps']
      rfl
    · rw [radiativeQPol_override ops a p hpv, radiativeQPol_override ops a
        p hpv]
      rfl

/-- An object overriding only the scalar emission primitive, over `ℚ`. -/
def emSObjQ : Generic ℚ :=
  ⟨none, 0, 0, true, false, some fun nu d _ _ => nu + d, none, none, none,
   none⟩

/-- C9 (witness): on the scalar-emission-only object over `ℚ`, the five
primitives give the same values from the fresh state and from the fully-set
state reached by one polarized radiativeQ call. -/
theorem claim9_witness :
    ((transmission opsQ emSObjQ (0 + 10) DState.init 3 2 [] []).map
        Prod.fst =
      (transmission opsQ emSObjQ (1 + 10) ⟨true, true, true⟩ 3 2 [] []).map
        Prod.fst) ∧
    ((emission opsQ emSObjQ (0 + 10) DState.init 3 2 [] []).map Prod.fst =
      (emission opsQ emSObjQ (1 + 10) ⟨true, true, true⟩ 3 2 [] []).map
        Prod.fst) ∧
    ((emissionVec opsQ emSObjQ ([3].length + (0 + 10)) DState.init [3] 2 []
        []).map Prod.fst =
      (emissionVec opsQ emSObjQ ([3].length + (1 + 10)) ⟨true, true, true⟩
        [3] 2 [] []).map Prod.fst) ∧
    ((radiativeQ opsQ emSObjQ ([3].length + (0 + 10)) DState.init [3] 2 []
        []).map Prod.fst =
      (radiativeQ opsQ emSObjQ ([3].length + (1 + 10)) ⟨true, true, true⟩
        [3] 2 [] []).map Prod.fst) ∧
    ((radiativeQPol opsQ emSObjQ ([3].length + (0 + 10)) DState.init [3] 2
        [] []).map Prod.fst =
      (radiativeQPol opsQ emSObjQ ([3].length + (1 + 10)) ⟨true, true, true⟩
        [3] 2 [] []).map Prod.fst) := by
  have hreach : Reach opsQ emSObjQ ⟨true, true, true⟩ :=
    Reach.stepRadiativeQPol 10 DState.init [3] 2 [] []
      ⟨[(3 : ℚ) + 2], [0], [0], [0],
       [if ((1 : ℚ) < 1/10) then (-1000 : ℚ) else -(opsQ.log 1)],
       [0], [0], [0], [0], [0], [0]⟩ ⟨true, true, true⟩ Reach.init (by rfl)
  exact claim9_capability_idempotence opsQ emSObjQ
    ⟨rfl, Or.inl ⟨⟨_, rfl⟩, rfl, rfl, rfl⟩⟩ DState.init ⟨true, true, true⟩
    Reach.init hreach 0 1 3 2 [3] [] []

/-! ## Hit-quantity accumulator: impact coordinates and final transmission -/

theorem specLoop_log (ggred3 : R) (Inu Taunu : List R) (trchan : ℕ → R) :
    ∀ (idxs : List ℕ) (spec : List R) (log : List (Option ℕ × R)),
      ∃ mid, (specLoop ggred3 Inu Taunu trchan idxs spec log).2 = log ++ mid ∧
        ∀ x ∈ mid, x.1 ≠ (none : Option ℕ) := by
  intro idxs
  induction idxs with
  | nil => intro spec log; exact ⟨[], by simp [specLoop], by simp⟩
  | cons ii rest ih =>
    intro spec log
    obtain ⟨mid, hmid, hch⟩ := ih (spec.set ii (spec.getD ii 0 +
      Inu.getD ii 0 * trchan ii * ggred3)) (log ++ [(some ii, Taunu.getD ii 0)])
    refine ⟨(some ii, Taunu.getD ii 0) :: mid, ?_, ?_⟩
    · rw [specLoop]
      simpa using hmid
    · intro x hx
      rcases List.mem_cons.mp hx with hx | hx
      · simp [hx]
      · exact hch x hx

theorem binLoop_log (ops : MathOps R) (a : Generic R) (fuel : ℕ)
    (specNull : Bool) (ggredm1 ggred4 dsem : R) (nuobs I : List R)
    (trchan : ℕ → R) (cph co : List R) :
    ∀ (idxs : List ℕ) (bs : List R) (log : List (Option ℕ × R)) (s : DState)
      (out : List R × List (Option ℕ × R) × DState),
      binLoop ops a fuel specNull ggredm1 ggred4 dsem nuobs I trchan cph co
          idxs bs log s = some out →
        ∃ mid, out.2.1 = log ++ mid ∧ ∀ x ∈ mid, x.1 ≠ (none : Option ℕ) := by
  intro idxs
  induction idxs with
  | nil =>
    intro bs log s out h
    rw [binLoop] at h
    cases h
    exact ⟨[], by simp, by simp⟩
  | cons ii rest ih =>
    intro bs log s out h
    rw [binLoop] at h
    cases specNull with
    | false =>
      simp only [Bool.false_eq_true, if_false] at h
      exact ih _ log s out h
    | true =>
      simp only [if_true] at h
      cases hr : transmission ops a fuel s (nuobs.getD ii 0 * ggredm1) dsem
          cph co with
      | none => rw [hr] at h; cases h
      | some r =>
        obtain ⟨t, s2⟩ := r
        rw [hr] at h
        dsimp only at h
        obtain ⟨mid, hmid, hch⟩ := ih _ (log ++ [(some ii, t)]) s2 out h
        refine ⟨(some ii, t) :: mid, ?_, ?_⟩
        · simpa using hmid
        · intro x hx
          rcases List.mem_cons.mp hx with hx | hx
          · simp [hx]
          · exact hch x hx

theorem stageIntensity_impact (ops : MathOps R) (a : Generic R) (F : ℕ)
    (transAll freqObs ggredm1 ggred dsem : R) (cph co : List R)
    (dat3 : HitData R) (s : DState) (dat4 : HitData R) (s1 : DState)
    (h : stageIntensity ops a F transAll freqObs ggredm1 ggred dsem cph co
      dat3 s = some (dat4, s1)) :
    dat4.impactcoords = dat3.impactcoords := by
  rw [stageIntensity] at h
  cases hI : dat3.intensity with
  | none =>
    rw [hI] at h
    obtain ⟨rfl, rfl⟩ : dat3 = dat4 ∧ s = s1 := by
      simpa [Prod.ext_iff] using h
    rfl
  | some v =>
    rw [hI] at h
    simp only [bind, Option.bind_eq_some] at h
    obtain ⟨⟨ev, sv⟩, _, h⟩ := h
    obtain ⟨hd, _⟩ : _ = dat4 ∧ sv = s1 := by simpa [Prod.ext_iff] using h
    rw [← hd]

theorem stageBinspectrum_spec (ops : MathOps R) (a : Generic R)
    (F efuel lfuel ofuel : ℕ) (spectro : Option (SpectroM R)) (nbnuobs : ℕ)
    (nuobs : List R) (transmits0 : List (Option ℕ × R)) (trchan : ℕ → R)
    (ggredm1 ggred dsem : R) (cph co : List R) (dat4 : HitData R)
    (s1 : DState) (dat5 : HitData R) (log1 : List (Option ℕ × R))
    (s2 : DState)
    (h : stageBinspectrum ops a F efuel lfuel ofuel spectro nbnuobs nuobs
      transmits0 trchan ggredm1 ggred dsem cph co dat4 s1 =
        some (dat5, log1, s2)) :
    dat5.impactcoords = dat4.impactcoords ∧
      ∃ mid, log1 = transmits0 ++ mid ∧
        ∀ x ∈ mid, x.1 ≠ (none : Option ℕ) := by
  rw [stageBinspectrum] at h
  cases hB : dat4.binspectrum with
  | none =>
    rw [hB] at h
    obtain ⟨rfl, rfl, rfl⟩ : dat4 = dat5 ∧ transmits0 = log1 ∧ s1 = s2 := by
      simpa [Prod.ext_iff] using h
    exact ⟨rfl, ⟨[], by simp, by simp⟩⟩
  | some bs =>
    rw [hB] at h
    simp only [bind, Option.bind_eq_some] at h
    obtain ⟨spr, _, h⟩ := h
    obtain ⟨⟨I, s2a⟩, _, h⟩ := h
    obtain ⟨⟨bs2, logb, s2b⟩, hbl, h⟩ := h
    obtain ⟨hd, hl, _⟩ :
        ({ dat4 with binspectrum := some bs2 } : HitData R) = dat5 ∧
          logb = log1 ∧ s2b = s2 := by
      simpa [Prod.ext_iff] using h
    obtain ⟨mid, hmid, hch⟩ := binLoop_log ops a F dat4.spectrum.isNone
      ggredm1 (ggred * ggred * ggred * ggred) dsem nuobs I trchan cph co
      (List.range nbnuobs) bs transmits0 s2a (bs2, logb, s2b) hbl
    refine ⟨by rw [← hd], ⟨mid, ?_, hch⟩⟩
    rw [← hl]
    exact hmid

theorem stageSpectrum_spec (ops : MathOps R) (a : Generic R) (F : ℕ)
    (parTransport : Bool) (transfers0 : List (PolOut R)) (trchan : ℕ → R)
    (nbnuobs : ℕ) (nuobs : List R) (ggredm1 ggred dsem : R)
    (cph co : List R) (dat5 : HitData R) (log1 : List (Option ℕ × R))
    (s2 : DState) (dat6 : HitData R) (log2 : List (Option ℕ × R))
    (tf2 : List (PolOut R)) (s3 : DState)
    (h : stageSpectrum ops a F parTransport transfers0 trchan nbnuobs nuobs
      ggredm1 ggred dsem cph co dat5 log1 s2 = some (dat6, log2, tf2, s3)) :
    dat6.impactcoords = dat5.impactcoords ∧
      ∃ mid, log2 = log1 ++ mid ∧ ∀ x ∈ mid, x.1 ≠ (none : Option ℕ) := by
  rw [stageSpectrum] at h
  by_cases hc : dat5.spectrum.isSome = true ∨ dat5.stokesQ.isSome = true ∨
      dat5.stokesU.isSome = true ∨ dat5.stokesV.isSome = true
  · rw [if_pos hc] at h
    cases parTransport with
    | true =>
      simp only [if_true] at h
      simp only [bind, Option.bind_eq_some] at h
      obtain ⟨⟨po, sx⟩, _, h⟩ := h
      obtain ⟨hd, hl, _, _⟩ : _ = dat6 ∧ log1 = log2 ∧ _ ∧ _ := by
        simpa [Prod.ext_iff] using h
      exact ⟨by rw [← hd], ⟨[], by rw [← hl]; simp, by simp⟩⟩
    | false =>
      simp only [Bool.false_eq_true, if_false] at h
      simp only [bind, Option.bind_eq_some] at h
      obtain ⟨⟨ITau, sx⟩, _, h⟩ := h
      obtain ⟨spec, _, h⟩ := h
      obtain ⟨mid, hmid, hch⟩ := specLoop_log (ggred * ggred * ggred) ITau.1
        ITau.2 trchan (List.range nbnuobs) spec log1
      obtain ⟨hd, hl, _, _⟩ : _ = dat6 ∧ _ = log2 ∧ _ ∧ _ := by
        simpa [Prod.ext_iff] using h
      refine ⟨by rw [← hd], ⟨mid, ?_, hch⟩⟩
      rw [← hl]
      exact hmid
  · rw [if_neg hc] at h
    obtain ⟨hd, hl, _, _⟩ : dat5 = dat6 ∧ log1 = log2 ∧ _ ∧ _ := by
      simpa [Prod.ext_iff] using h
    exact ⟨by rw [← hd], ⟨[], by rw [← hl]; simp, by simp⟩⟩

theorem processHitCore_spec (ops : MathOps R) (a : Generic R)
    (F efuel lfuel ofuel : ℕ) (ph0 : PhotonM R) (cph co : List R) (dt : R)
    (dat0 : HitData R) (s : DState) (gg : MetricM R)
    (out : HitData R × List (Option ℕ × R) × List (PolOut R) × DState)
    (h : processHitCore ops a F efuel lfuel ofuel ph0 cph co dt dat0 s gg =
      some out) :
    (∃ dat3, impactStep ops cph co
        { dat0 with
          redshift := dat0.redshift.map fun _ => 1 / hit_ggredm1 a gg cph co,
          time := dat0.time.map fun _ => cph.getD 0 0 } = some dat3 ∧
      out.1.impactcoords = dat3.impactcoords) ∧
    (∃ mid, out.2.1 = ph0.transmits ++ mid ∧
      ∀ x ∈ mid, x.1 ≠ (none : Option ℕ)) := by
  simp only [processHitCore, bind, Option.bind_eq_some] at h
  obtain ⟨dat3, himp, h⟩ := h
  obtain ⟨⟨dat4, s1⟩, hint, h⟩ := h
  obtain ⟨⟨dat5, log1, s2⟩, hbin, h⟩ := h
  obtain ⟨⟨dat6, log2, tf2, s3⟩, hspec, h⟩ := h
  have hout : out = (dat6, log2, tf2, s3) := by
    obtain ⟨h1, h2, h3, h4⟩ : dat6 = out.1 ∧ log2 = out.2.1 ∧
        tf2 = out.2.2.1 ∧ s3 = out.2.2.2 := by
      simpa [Prod.ext_iff] using h
    obtain ⟨o1, o2, o3, o4⟩ := out
    simp_all
  subst hout
  have h4 := stageIntensity_impact ops a F ph0.transAll ph0.freqObs
    (hit_ggredm1 a gg cph co) (1 / hit_ggredm1 a gg cph co)
    (hit_dsem a gg cph co dt) cph co dat3 s dat4 s1 hint
  obtain ⟨h5ic, mid1, hlog1, hch1⟩ := stageBinspectrum_spec ops a F efuel
    lfuel ofuel ph0.spectrometer _ _ ph0.transmits ph0.transChan
    (hit_ggredm1 a gg cph co) (1 / hit_ggredm1 a gg cph co)
    (hit_dsem a gg cph co dt) cph co dat4 s1 dat5 log1 s2 hbin
  obtain ⟨h6ic, mid2, hlog2, hch2⟩ := stageSpectrum_spec ops a F
    ph0.parallelTransport ph0.transfers ph0.transChan _ _
    (hit_ggredm1 a gg cph co) (1 / hit_ggredm1 a gg cph co)
    (hit_dsem a gg cph co dt) cph co dat5 log1 s2 dat6 log2 tf2 s3 hspec
  constructor
  · exact ⟨dat3, himp, by rw [h6ic, h5ic, h4]⟩
  · refine ⟨mid1 ++ mid2, ?_, ?_⟩
    · rw [hlog2, hlog1, List.append_assoc]
    · intro x hx
      rcases List.mem_append.mp hx with hx | hx
      · exact hch1 x hx
      · exact hch2 x hx

/-- C5: when the impact-coordinates slot is requested, the 16-double
snapshot (8 object-state then 8 photon-state components) is written only if
the first slot still holds the `DBL_MAX` sentinel — a second hit on the
same record leaves it untouched — and an error is reported if the supplied
photon state has more than 8 components while the slot is still awaiting
its first write. -/
theorem claim5_impactcoords_guard (ops : MathOps R) (a : Generic R)
    (F efuel lfuel ofuel : ℕ) (ph0 : PhotonM R) (cph co : List R) (dt : R)
    (dat0 : HitData R) (s : DState) (buf : List R)
    (hbuf : dat0.impactcoords = some buf) :
    (buf.getD 0 0 ≠ ops.dblMax →
      ∀ ph' datOut s',
        processHitQuantities ops a F efuel lfuel ofuel ph0 cph co dt
          (some dat0) s = some (ph', some datOut, s') →
        datOut.impactcoords = some buf) ∧
    (buf.getD 0 0 = ops.dblMax → 8 < cph.length →
      processHitQuantities ops a F efuel lfuel ofuel ph0 cph co dt
        (some dat0) s = none) ∧
    (buf.getD 0 0 = ops.dblMax → cph.length ≤ 8 →
      ∀ ph' datOut s',
        processHitQuantities ops a F efuel lfuel ofuel ph0 cph co dt
          (some dat0) s = some (ph', some datOut, s') →
        datOut.impactcoords = some (co.take 8 ++ cph.take 8)) := by
  refine ⟨?_, ?_, ?_⟩
  · intro hne ph' datOut s' hsucc
    rw [processHitQuantities] at hsucc
    cases hgg : a.gg with
    | none => rw [hgg] at hsucc; cases hsucc
    | some gg =>
      rw [hgg] at hsucc
      dsimp only at hsucc
      cases hcore : processHitCore ops a F efuel lfuel ofuel ph0 cph co dt
          dat0 s gg with
      | none => rw [hcore] at hsucc; cases hsucc
      | some out =>
        rw [hcore] at hsucc
        dsimp only at hsucc
        cases htr : transmission ops a F out.2.2.2
            (ph0.freqObs * hit_ggredm1 a gg cph co) (hit_dsem a gg cph co dt)
            cph co with
        | none =>
          rw [htr] at hsucc
          cases hsucc
        | some r =>
          obtain ⟨t, s5⟩ := r
          rw [htr] at hsucc
          obtain ⟨hph, hdat, hs⟩ :
              _ = ph' ∧ some out.1 = some datOut ∧ s5 = s' := by
            simpa [Prod.ext_iff] using hsucc
          obtain ⟨⟨dat3, himp, hic⟩, _⟩ := processHitCore_spec ops a F efuel
            lfuel ofuel ph0 cph co dt dat0 s gg out hcore
          rw [impactStep] at himp
          simp only [hbuf] at himp
          rw [if_neg hne] at himp
          have hdat3 : dat3.impactcoords = some buf := by
            obtain rfl : _ = dat3 := Option.some.inj himp
            simpa using hbuf
          have : datOut = out.1 := (Option.some.inj hdat).symm
          rw [this, hic, hdat3]
  · intro hsent hlen
    cases hgg : a.gg with
    | none => rw [processHitQuantities, hgg]
    | some gg =>
      rw [processHitQuantities, hgg]
      dsimp only
      have hcore : processHitCore ops a F efuel lfuel ofuel ph0 cph co dt
          dat0 s gg = none := by
        have himp : impactStep ops cph co
            { dat0 with
              redshift := dat0.redshift.map fun _ =>
                1 / hit_ggredm1 a gg cph co,
              time := dat0.time.map fun _ => cph.getD 0 0 } = none := by
          rw [impactStep]
          simp only [hbuf]
          rw [if_pos hsent, if_pos hlen]
        simp only [processHitCore, bind]
        rw [himp]
        rfl
      rw [hcore]
  · intro hsent hlen ph' datOut s' hsucc
    rw [processHitQuantities] at hsucc
    cases hgg : a.gg with
    | none => rw [hgg] at hsucc; cases hsucc
    | some gg =>
      rw [hgg] at hsucc
      dsimp only at hsucc
      cases hcore : processHitCore ops a F efuel lfuel ofuel ph0 cph co dt
          dat0 s gg with
      | none => rw [hcore] at hsucc; cases hsucc
      | some out =>
        rw [hcore] at hsucc
        dsimp only at hsucc
        cases htr : transmission ops a F out.2.2.2
            (ph0.freqObs * hit_ggredm1 a gg cph co) (hit_dsem a gg cph co dt)
            cph co with
        | none =>
          rw [htr] at hsucc
          cases hsucc
        | some r =>
          obtain ⟨t, s5⟩ := r
          rw [htr] at hsucc
          obtain ⟨hph, hdat, hs⟩ :
              _ = ph' ∧ some out.1 = some datOut ∧ s5 = s' := by
            simpa [Prod.ext_iff] using hsucc
          obtain ⟨⟨dat3, himp, hic⟩, _⟩ := processHitCore_spec ops a F efuel
            lfuel ofuel ph0 cph co dt dat0 s gg out hcore
          rw [impactStep] at himp
          simp only [hbuf] at himp
          rw [if_pos hsent, if_neg (by omega : ¬ 8 < cph.length)] at himp
          have hdat3 : dat3.impactcoords = some (co.take 8 ++ cph.take 8) := by
            obtain rfl : _ = dat3 := Option.some.inj himp
            rfl
          have : datOut = out.1 := (Option.some.inj hdat).symm
          rw [this, hic, hdat3]

/-- C6: on every invocation of the hit-quantity accumulator with a non-null
output record that returns, regardless of which output-slot branches
executed, the scalar transmission primitive is called once more at the
observed frequency redshifted into the emitted frame
(`freqObs * ggredm1`), and its result is the final entry pushed onto the
photon's overall (non-channel) transmission record — every earlier push of
the call targeted a spectral channel. -/
theorem claim6_final_transmission (ops : MathOps R) (a : Generic R)
    (F efuel lfuel ofuel : ℕ) (ph0 : PhotonM R) (cph co : List R) (dt : R)
    (dat0 : HitData R) (s : DState) (gg : MetricM R) (hgg : a.gg = some gg)
    (ph' : PhotonM R) (datOut : Option (HitData R)) (s' : DState)
    (h : processHitQuantities ops a F efuel lfuel ofuel ph0 cph co dt
      (some dat0) s = some (ph', datOut, s')) :
    ∃ t s4 mid,
      transmission ops a F s4 (ph0.freqObs * hit_ggredm1 a gg cph co)
        (hit_dsem a gg cph co dt) cph co = some (t, s') ∧
      ph'.transmits = ph0.transmits ++ mid ++ [(none, t)] ∧
      ∀ x ∈ mid, x.1 ≠ (none : Option ℕ) := by
  rw [processHitQuantities, hgg] at h
  dsimp only at h
  cases hcore : processHitCore ops a F efuel lfuel ofuel ph0 cph co dt dat0
      s gg with
  | none => rw [hcore] at h; cases h
  | some out =>
    rw [hcore] at h
    dsimp only at h
    cases htr : transmission ops a F out.2.2.2
        (ph0.freqObs * hit_ggredm1 a gg cph co) (hit_dsem a gg cph co dt)
        cph co with
    | none => rw [htr] at h; cases h
    | some r =>
      obtain ⟨t, s5⟩ := r
      rw [htr] at h
      obtain ⟨hph, _, hs⟩ : _ = ph' ∧ some out.1 = datOut ∧ s5 = s' := by
        simpa [Prod.ext_iff] using h
      obtain ⟨_, mid, hmid, hch⟩ := processHitCore_spec ops a F efuel lfuel
        ofuel ph0 cph co dt dat0 s gg out hcore
      refine ⟨t, out.2.2.2, mid, ?_, ?_, hch⟩
      · rw [htr, hs]
      · rw [← hph]
        simp [hmid]

/-- A concrete metric collaborator over ℚ: stationary-observer scalar
product `-1` in spherical coordinates. -/
def ggW : MetricM ℚ := ⟨fun _ _ _ => -1, CoordKind.spherical⟩

/-- A concrete optically-thin object over ℚ attached to `ggW`, with no
overrides. -/
def aGGW : Generic ℚ := ⟨some ggW, 0, 0, true, false, none, none, none, none, none⟩

/-- A concrete photon over ℚ: observed frequency 1, no spectrometer, all
stored transmissions 1, empty logs. -/
def phW : PhotonM ℚ := ⟨1, none, false, 1, fun _ => 1, [], []⟩

/-- A concrete output record over ℚ whose only requested slot is
`impactcoords`, still holding the 16-double `DBL_MAX` sentinel. -/
def datSentW : HitData ℚ :=
  ⟨none, none, some (List.replicate 16 999), none, none, none, none, none, none⟩

/-- A concrete 8-component photon state at the hit. -/
def cphW : List ℚ := [0, 0, 0, 0, 1, 0, 0, 0]

/-- A concrete 8-component object state at the hit. -/
def coW : List ℚ := [0, 0, 0, 0, 1, 0, 0, 0]

/-- The concrete hit-quantity run used to exhibit the final transmission
push. -/
def runW6 : Option (PhotonM ℚ × Option (HitData ℚ) × DState) :=
  processHitQuantities opsQ aGGW 8 8 8 8 phW cphW coW 1 (some datSentW)
    DState.init

/-- The photon returned by `runW6`. -/
def phOutW : PhotonM ℚ := (runW6.getD (phW, none, DState.init)).1

/-- The output record returned by `runW6`. -/
def datOutW6 : Option (HitData ℚ) := (runW6.getD (phW, none, DState.init)).2.1

/-- The capability state returned by `runW6`. -/
def sOutW6 : DState := (runW6.getD (phW, none, DState.init)).2.2

theorem claim5_witness :
    datSentW.impactcoords = some (List.replicate 16 (999 : ℚ)) ∧
    (List.replicate 16 (999 : ℚ)).getD 0 0 = opsQ.dblMax ∧
    8 < (List.replicate 16 (0 : ℚ)).length ∧
    processHitQuantities opsQ aGGW 8 8 8 8 phW (List.replicate 16 (0 : ℚ))
      coW 1 (some datSentW) DState.init = none :=
  ⟨rfl, rfl, by decide,
   (claim5_impactcoords_guard opsQ aGGW 8 8 8 8 phW
      (List.replicate 16 (0 : ℚ)) coW 1 datSentW DState.init
      (List.replicate 16 (999 : ℚ)) rfl).2.1 rfl (by decide)⟩

theorem claim6_witness :
    aGGW.gg = some ggW ∧
    processHitQuantities opsQ aGGW 8 8 8 8 phW cphW coW 1 (some datSentW)
      DState.init = some (phOutW, datOutW6, sOutW6) ∧
    ∃ t s4 mid,
      transmission opsQ aGGW 8 s4 (phW.freqObs * hit_ggredm1 aGGW ggW cphW coW)
        (hit_dsem aGGW ggW cphW coW 1) cphW coW = some (t, sOutW6) ∧
      phOutW.transmits = phW.transmits ++ mid ++ [(none, t)] ∧
      ∀ x ∈ mid, x.1 ≠ (none : Option ℕ) :=
  ⟨rfl, rfl,
   claim6_final_transmission opsQ aGGW 8 8 8 8 phW cphW coW 1 datSentW
     DState.init ggW rfl phOutW datOutW6 sOutW6 rfl⟩

/-- A concrete spherical object over ℚ with `rMax = 10` and
`deltaMaxInsideRMax = 1/2`. -/
def sphObjW : Generic ℚ :=
  ⟨some ggW, 10, 1/2, true, false, none, none, none, none, none⟩

theorem claim7_witness :
    sphObjW.gg = some ggW ∧ ggW.coordKind = CoordKind.spherical ∧
    deltaMax opsQ sphObjW [0, 5] = some ((1 : ℚ) / 2) ∧
    deltaMax opsQ sphObjW [0, 20] = some ((20 : ℚ) * (1 / 2)) := by
  refine ⟨rfl, rfl, ?_, ?_⟩
  · have h := (claim7_deltaMax_policy opsQ sphObjW ggW rfl [0, 5]).1 rfl
    rw [h]
    norm_num [sphObjW]
  · have h := (claim7_deltaMax_policy opsQ sphObjW ggW rfl [0, 20]).1 rfl
    rw [h]
    norm_num [sphObjW]

end Gyoto
